import Mathlib

/-!
Verification development for the TinyG RS274/NGC G-code interpreter
(src/firmware/tinyg_exp/gcode.c).

The C source is shallowly embedded: C strings become `List Char`, C doubles
become the value type `DVal` — an exact rational for finite values (the
numeric literals the interpreter manipulates are exact decimals, so rational
arithmetic models them exactly) together with the IEEE infinities and NaN
that `strtod` can deliver — the three parallel `GCodeModel` structs become
Lean structures, and the calls into the external canonical machine become an
explicit trace of `CMCall` events paired with a status oracle
`resp : CMCall → Status` standing for the canonical machine's return codes.  Enumeration constants and status codes live in
headers (gcode.h / tinyg.h) that are not part of the repository snapshot;
their values are modelled from the spec, and only equality between them is
ever used, mirroring the C code's `==` tests and `memset`-to-zero defaults.
-/

set_option allowUnsafeReducibility true

attribute [local semireducible] Rat.mul Rat.inv Rat.add Rat.sub

namespace TinyG

/-! ### C character classification (ctype.h on the ASCII execution character set) -/

/-- C `isupper` on the ASCII execution character set. -/
def c_isupper (c : Char) : Bool := 65 ≤ c.toNat && c.toNat ≤ 90

/-- C `isdigit` on the ASCII execution character set. -/
def c_isdigit (c : Char) : Bool := 48 ≤ c.toNat && c.toNat ≤ 57

/-- C `islower` on the ASCII execution character set. -/
def c_islower (c : Char) : Bool := 97 ≤ c.toNat && c.toNat ≤ 122

/-- C `isspace` on the ASCII execution character set: space and the five
control characters HT, LF, VT, FF, CR. -/
def c_isspace (c : Char) : Bool := (c.toNat = 32) || (9 ≤ c.toNat && c.toNat ≤ 13)

/-- C `toupper` on the ASCII execution character set: maps `a`..`z` to
`A`..`Z` and is the identity elsewhere. -/
def c_toupper (c : Char) : Char :=
  if c_islower c then Char.ofNat (c.toNat - 32) else c

theorem char_toNat_ofNat {n : Nat} (h : n < 55296) : (Char.ofNat n).toNat = n := by
  have hv : n.isValidChar := Or.inl h
  simp [Char.ofNat, hv, Char.ofNatAux, Char.toNat]
  rfl

theorem c_toupper_toNat (c : Char) :
    (c_toupper c).toNat = if c_islower c then c.toNat - 32 else c.toNat := by
  unfold c_toupper
  split
  · next hl =>
    unfold c_islower at hl
    simp only [Bool.and_eq_true, decide_eq_true_eq] at hl
    rw [char_toNat_ofNat (by omega)]
  · rfl

theorem c_toupper_fixed (c : Char) (h : c_islower c = false) : c_toupper c = c := by
  unfold c_toupper
  simp [h]

theorem c_islower_toupper (c : Char) : c_islower (c_toupper c) = false := by
  have h := c_toupper_toNat c
  unfold c_islower
  simp only [Bool.and_eq_false_iff, decide_eq_false_iff_not]
  by_cases hl : c_islower c = true
  · rw [if_pos hl] at h
    unfold c_islower at hl
    simp only [Bool.and_eq_true, decide_eq_true_eq] at hl
    omega
  · rw [if_neg hl] at h
    have hl' : ¬ (97 ≤ c.toNat ∧ c.toNat ≤ 122) := by
      intro hc
      apply hl
      unfold c_islower
      simp [hc.1, hc.2]
    omega

theorem c_toupper_idem (c : Char) : c_toupper (c_toupper c) = c_toupper c :=
  c_toupper_fixed _ (c_islower_toupper c)

/-! ### Line Normalizer (`_gc_normalize_gcode_block`, gcode.c lines 146-190) -/

/-- The punctuation discarded by the normalizer, from the C source's
`strchr("!$%,;:?@^_~\x60\x27\x22", c)` test (the last three characters of that
C literal are the backquote, the apostrophe and the double quote). -/
def discardSet : List Char :=
  ['!', '$', '%', ',', ';', ':', '?', '@', '^', '_', '~', '\x60', '\x27', '\x22']

/-- The character-copying loop of `_gc_normalize_gcode_block` (lines 159-174).
Walks the raw characters; returns the normalized command characters and, when
an opening parenthesis was seen, the raw remainder of the line after it (the
C code sets `comment = &block[i]`).  A NUL character ends the C string. -/
def normLoop : List Char → List Char × Option (List Char)
  | [] => ([], none)
  | a :: rest =>
    let c := c_toupper a
    if c = '\x00' then ([], none)
    else if c_isupper c || c_isdigit c then
      let r := normLoop rest
      (c :: r.1, r.2)
    else if c = '(' then ([], some rest)
    else if c.toNat ≤ 32 then normLoop rest
    else if c.toNat = 127 then normLoop rest
    else if c ∈ discardSet then normLoop rest
    else
      let r := normLoop rest
      (c :: r.1, r.2)

/-- The `MSG` header test of lines 177-179: the first three characters of the
comment, uppercased, spell `MSG`.  Positions past the end of the C string read
the NUL terminator, modelled by the `'\x00'` default. -/
def msgCheck (com : List Char) : Bool :=
  c_toupper (com.getD 0 '\x00') = 'M' &&
  c_toupper (com.getD 1 '\x00') = 'S' &&
  c_toupper (com.getD 2 '\x00') = 'G'

/-- `_gc_normalize_gcode_block`: returns the normalized command string and the
message emitted by `cm_message` (if any).  The comment handling of lines
176-189 truncates the comment at its first closing parenthesis (writing a NUL
over it) and emits everything after the three `MSG` letters. -/
def gc_normalize_gcode_block (block : List Char) : List Char × Option (List Char) :=
  if block.head? = some '/' then ([], none)
  else
    let r := normLoop block
    (r.1, r.2.bind fun com =>
      let ct := com.takeWhile (· ≠ '\x00')
      if msgCheck ct then some ((ct.takeWhile (· ≠ ')')).drop 3) else none)

example : gc_normalize_gcode_block ("g1 x10" : String).toList = (['G', '1', 'X', '1', '0'], none) := by decide

example : gc_normalize_gcode_block ("(MSG hello)" : String).toList = ([], some (" hello" : String).toList) := by decide

example : gc_normalize_gcode_block ("/G1 X5" : String).toList = ([], none) := by decide

example : gc_normalize_gcode_block (" /" : String).toList = (['/'], none) := by decide

example : gc_normalize_gcode_block ("&%" : String).toList = (['&'], none) := by decide

/-! ### Enumerations and status codes

The enum and status constants live in gcode.h / tinyg.h, which are not in the
repository snapshot.  Modelled from the spec: next-action has the values
none / motion / dwell / go-home / offset-coordinates; motion mode covers
straight traverse, straight feed, CW arc, CCW arc and cancel; statuses include
OK, quit, expected-command-letter, bad-number-format, unsupported-statement and
the canonical machine's own domain errors.  Only equality between constants is
used, as in the C code; memset-to-zero picks the first constructor. -/

/-- Modelled from the spec: the `nextAction` enumeration of the missing
gcode.h (none / motion / dwell / go-home / offset-coordinates). -/
inductive NextAction
  | NEXT_ACTION_NONE
  | NEXT_ACTION_MOTION
  | NEXT_ACTION_DWELL
  | NEXT_ACTION_GO_HOME
  | NEXT_ACTION_OFFSET_COORDINATES
  deriving DecidableEq, Inhabited

/-- Modelled from the spec: the motion-mode enumeration of the missing
gcode.h. -/
inductive MotionMode
  | MOTION_MODE_CANCEL_MOTION_MODE
  | MOTION_MODE_STRAIGHT_TRAVERSE
  | MOTION_MODE_STRAIGHT_FEED
  | MOTION_MODE_CW_ARC
  | MOTION_MODE_CCW_ARC
  deriving DecidableEq, Inhabited

/-- Modelled from the spec: the plane-selection enumeration of the missing
canonical_machine.h. -/
inductive CanonPlane
  | CANON_PLANE_XY
  | CANON_PLANE_XZ
  | CANON_PLANE_YZ
  deriving DecidableEq, Inhabited

/-- Modelled from the spec: the spindle-mode enumeration of the missing
header. -/
inductive SpindleMode
  | SPINDLE_OFF
  | SPINDLE_CW
  | SPINDLE_CCW
  deriving DecidableEq, Inhabited

/-- Modelled from the spec: the program-flow enumeration of the missing
gcode.h (the zero value is modelled as NONE; the dispatcher never reads it). -/
inductive ProgramFlow
  | PROGRAM_FLOW_NONE
  | PROGRAM_FLOW_STOP
  | PROGRAM_FLOW_END
  deriving DecidableEq, Inhabited

/-- Modelled from the spec: the status codes of the missing tinyg.h.  TG_OK is
the C value 0, the unique falsy status; `TG_ERROR n` stands for the canonical
machine's own domain error codes, passed through unchanged. -/
inductive Status
  | TG_OK
  | TG_QUIT
  | TG_EXPECTED_COMMAND_LETTER
  | TG_BAD_NUMBER_FORMAT
  | TG_UNSUPPORTED_STATEMENT
  | TG_ERROR (n : Nat)
  deriving DecidableEq, Inhabited

/-! ### The double value type

`_gc_read_double` obtains its values from libc `strtod`, which can return
the IEEE infinities and NaN (for the `INF`/`INFINITY`/`NAN` input forms), so
a C double is modelled as a finite exact rational or one of the three
non-finite value classes. -/

/-- C `trunc` on a finite double (round toward zero), as an integer. -/
def ratTruncInt (q : ℚ) : Int := if 0 ≤ q then ⌊q⌋ else ⌈q⌉

/-- C `trunc` on a finite double (round toward zero), staying a rational. -/
def ratTrunc (q : ℚ) : ℚ := (ratTruncInt q : ℚ)

/-- A C double as the interpreter observes it: a finite value (idealized as
an exact rational) or one of the IEEE non-finite values `+inf`, `-inf`,
`nan`. -/
inductive DVal
  | fin (q : ℚ)
  | pinf
  | ninf
  | nan
  deriving DecidableEq, Inhabited

instance (n : Nat) : OfNat DVal n := ⟨.fin (n : ℚ)⟩

/-- IEEE-754 subtraction on the value classes: NaN propagates, an infinity
minus itself is NaN, an infinity dominates a finite operand, and finite
minus finite is exact. -/
def DVal.sub : DVal → DVal → DVal
  | .nan, _ => .nan
  | _, .nan => .nan
  | .pinf, .pinf => .nan
  | .ninf, .ninf => .nan
  | .pinf, _ => .pinf
  | .ninf, _ => .ninf
  | .fin _, .pinf => .ninf
  | .fin _, .ninf => .pinf
  | .fin a, .fin b => .fin (a - b)

/-- C `trunc` on the value classes: a finite value rounds toward zero, the
non-finite values are returned unchanged (IEEE `trunc`). -/
def DVal.trunc : DVal → DVal
  | .fin q => .fin (ratTrunc q)
  | v => v

/-- The `GCodeModel` struct of gcode.c (fields actually read or written by
the parser and dispatcher).  The `target` and `offset` arrays become three
named fields each.  C doubles are modelled as `DVal`. -/
structure GCodeModel where
  next_action : NextAction := .NEXT_ACTION_NONE
  motion_mode : MotionMode := .MOTION_MODE_CANCEL_MOTION_MODE
  target_X : DVal := 0
  target_Y : DVal := 0
  target_Z : DVal := 0
  offset_0 : DVal := 0
  offset_1 : DVal := 0
  offset_2 : DVal := 0
  radius : DVal := 0
  feed_rate : DVal := 0
  dwell_time : DVal := 0
  spindle_speed : DVal := 0
  tool : DVal := 0
  spindle_mode : SpindleMode := .SPINDLE_OFF
  set_plane : CanonPlane := .CANON_PLANE_XY
  inches_mode : Bool := false
  absolute_mode : Bool := false
  absolute_override : Bool := false
  set_origin_mode : Bool := false
  inverse_feed_rate_mode : Bool := false
  program_flow : ProgramFlow := .PROGRAM_FLOW_NONE
  change_tool : Bool := false
  deriving DecidableEq, Inhabited

/-- The `gf` flag struct: one boolean per `GCodeModel` field, true exactly
when the field was assigned during this block's parse (`SET_NEXT_STATE` sets
`gf.a = 1`).  `ZERO_MODEL_STATE` clears every flag. -/
structure GCodeFlags where
  next_action : Bool := false
  motion_mode : Bool := false
  target_X : Bool := false
  target_Y : Bool := false
  target_Z : Bool := false
  offset_0 : Bool := false
  offset_1 : Bool := false
  offset_2 : Bool := false
  radius : Bool := false
  feed_rate : Bool := false
  dwell_time : Bool := false
  spindle_speed : Bool := false
  tool : Bool := false
  spindle_mode : Bool := false
  set_plane : Bool := false
  inches_mode : Bool := false
  absolute_mode : Bool := false
  absolute_override : Bool := false
  set_origin_mode : Bool := false
  inverse_feed_rate_mode : Bool := false
  program_flow : Bool := false
  change_tool : Bool := false
  deriving DecidableEq, Inhabited

/-- The slice of Persistent Machine State the parser pre-seeds from
(`cm_get_next_action`, `cm_get_motion_mode`, `cm_get_position`); owned by the
external canonical machine. -/
structure PersistentMachine where
  next_action : NextAction
  motion_mode : MotionMode
  pos_X : DVal
  pos_Y : DVal
  pos_Z : DVal
  deriving DecidableEq, Inhabited

/-! ### Statement Tokenizer (`_gc_next_statement` / `_gc_read_double`,
gcode.c lines 201-239)

`_gc_read_double` calls libc `strtod`.  The firmware targets AVR (it
includes avr/pgmspace.h), so the library linked is avr-libc, whose `strtod`
accepts: an optional `isspace` run, an optional sign, and then either the
case-insensitive `INF` / `INFINITY` form (signed infinity), the
case-insensitive `NAN` form (its source notes that the `NAN(...)`
construction is not realised, and the sign is not applied to NaN), or a
decimal mantissa `digits [. digits]` with an optional `e`/`E` exponent
(rolled back when no digit follows the exponent marker).  avr-libc
implements no C99 hexadecimal form, and that is modelled too.  The decimal
conversion is idealized as exact rational arithmetic. -/

/-- Numeric value of a digit string, most significant first. -/
def digitsVal (l : List Char) : Nat :=
  l.foldl (fun acc c => 10 * acc + (c.toNat - 48)) 0

/-- Optional leading sign: returns the sign factor, characters consumed and
the remainder. -/
def parseSign (l : List Char) : ℚ × Nat × List Char :=
  match l with
  | c :: r => if c = '+' then (1, 1, r) else if c = '-' then (-1, 1, r) else (1, 0, c :: r)
  | [] => (1, 0, [])

/-- Optional exponent sign inside an exponent part, same shape as
`parseSign` but with an integer sign factor. -/
def parseExpSign (l : List Char) : Int × Nat × List Char :=
  match l with
  | c :: r => if c = '+' then (1, 1, r) else if c = '-' then (-1, 1, r) else (1, 0, c :: r)
  | [] => (1, 0, [])

/-- Optional exponent part (`E` or `e`, optional sign, at least one digit);
`none` when absent or malformed, in which case `strtod` consumes none of it. -/
def parseExp (l : List Char) : Option (Int × Nat) :=
  match l with
  | c :: r =>
    if c = 'E' ∨ c = 'e' then
      let s := parseExpSign r
      let ds := s.2.2.takeWhile c_isdigit
      if ds.isEmpty then none
      else some (s.1 * (digitsVal ds : Int), 1 + s.2.1 + ds.length)
    else none
  | [] => none

/-- Unsigned mantissa: the longest `digits [ '.' [digits] ]` prefix.  Returns
the value, the characters consumed and the remainder; `none` when no digit at
all was found (in which case `strtod` performs no conversion). -/
def mantissaParse (l : List Char) : Option (ℚ × Nat × List Char) :=
  let ds1 := l.takeWhile c_isdigit
  let l2 := l.dropWhile c_isdigit
  if l2.head? = some '.' then
    let ds2 := l2.tail.takeWhile c_isdigit
    let l4 := l2.tail.dropWhile c_isdigit
    if ds1.isEmpty && ds2.isEmpty then none
    else some ((digitsVal ds1 : ℚ) + (digitsVal ds2 : ℚ) / (10 : ℚ) ^ ds2.length,
               ds1.length + 1 + ds2.length, l4)
  else
    if ds1.isEmpty then none
    else some ((digitsVal ds1 : ℚ), ds1.length, l2)

/-- Case-insensitive match of `pat` against the start of `l`, as
`strncasecmp(l, pat, pat.length) == 0` behaves on a NUL-terminated buffer
holding the NUL-free `l`: the patterns used contain no NUL, so a match
requires `pat.length` real characters. -/
def matchCI (l pat : List Char) : Bool :=
  (l.take pat.length).map c_toupper == pat

/-- avr-libc `strtod` on a character list: skip `isspace` characters, read
an optional sign (the sign factor is `-1` exactly when a minus was read, the
library's FL_MINUS flag), then try the case-insensitive `INF` form (with
five more characters consumed when `INITY` follows), the case-insensitive
`NAN` form (sign not applied, as in the library), and finally the decimal
mantissa with optional exponent.  Returns the value and the number of
characters consumed from the start of `l`, or `none` when no conversion
could be performed (`end == start` in the C code). -/
def strtodAux (l : List Char) : Option (DVal × Nat) :=
  let ws := l.takeWhile c_isspace
  let s := parseSign (l.dropWhile c_isspace)
  let pre := ws.length + s.2.1
  if matchCI s.2.2 ['I', 'N', 'F'] then
    some (if s.1 = -1 then .ninf else .pinf,
      pre + (if matchCI (s.2.2.drop 3) ['I', 'N', 'I', 'T', 'Y'] then 8 else 3))
  else if matchCI s.2.2 ['N', 'A', 'N'] then
    some (.nan, pre + 3)
  else
    match mantissaParse s.2.2 with
    | none => none
    | some m =>
      match parseExp m.2.2 with
      | some en => some (.fin (s.1 * m.1 * (10 : ℚ) ^ en.1), pre + m.2.1 + en.2)
      | none => some (.fin (s.1 * m.1), pre + m.2.1)

/-- `_gc_read_double` (lines 227-239): `strtod` starting at index `i` of the
buffer; on success returns the value and the index of the first character
after the number (`*i = end - buf`). -/
def strtodParse (buf : List Char) (i : Nat) : Option (DVal × Nat) :=
  (strtodAux (buf.drop i)).map fun vn => (vn.1, i + vn.2)

/-- `_gc_next_statement` (lines 201-217).  Reading `buf[*i]` on a C string
past the end yields the NUL terminator, modelled by `getD` with `'\x00'`.
Returns the statement `(letter, value, fraction, new cursor)` on success
together with the (unchanged) status; returns `none` and the new status at
end-of-string or on error. -/
def gc_next_statement (buf : List Char) (i : Nat) (st : Status) :
    Option (Char × DVal × DVal × Nat) × Status :=
  if buf.getD i '\x00' = '\x00' then (none, st)
  else
    let letter := buf.getD i '\x00'
    if ¬ c_isupper letter then (none, Status.TG_EXPECTED_COMMAND_LETTER)
    else
      match strtodParse buf (i + 1) with
      | none => (none, Status.TG_BAD_NUMBER_FORMAT)
      | some vi => (some (letter, vi.1, DVal.sub vi.1 (DVal.trunc vi.1), vi.2), st)

example : strtodParse ("X10.5" : String).toList 1 = some (.fin (21 / 2), 5) := by decide

example : strtodParse ("G-3E2" : String).toList 1 = some (.fin (-300), 5) := by decide

example : strtodParse ("F" : String).toList 1 = none := by decide

example : strtodParse ("XINF" : String).toList 1 = some (.pinf, 4) := by decide

example : strtodParse ("X-infinity7" : String).toList 1 = some (.ninf, 10) := by decide

example : strtodParse ("MNAN" : String).toList 1 = some (.nan, 4) := by decide

example : strtodParse ("M-NAN" : String).toList 1 = some (.nan, 5) := by decide

example : strtodParse ("XINFIN" : String).toList 1 = some (.pinf, 4) := by decide

example : gc_next_statement ("X10.5" : String).toList 0 .TG_OK =
    (some ('X', .fin (21 / 2), .fin (1 / 2), 5), .TG_OK) := by decide

example : gc_next_statement ("XINF" : String).toList 0 .TG_OK =
    (some ('X', .pinf, .nan, 4), .TG_OK) := by decide

example : gc_next_statement ("x1" : String).toList 0 .TG_OK =
    (none, .TG_EXPECTED_COMMAND_LETTER) := by decide

/-! ### Consumption bounds for the tokenizer (used for loop termination) -/

theorem length_takeWhile_add_dropWhile (p : Char → Bool) (l : List Char) :
    (l.takeWhile p).length + (l.dropWhile p).length = l.length := by
  conv_rhs => rw [← List.takeWhile_append_dropWhile (p := p) (l := l)]
  rw [List.length_append]

theorem parseSign_spec (l : List Char) :
    (parseSign l).2.1 ≤ 1 ∧ (parseSign l).2.1 + (parseSign l).2.2.length = l.length := by
  cases l with
  | nil => simp [parseSign]
  | cons c r =>
    simp only [parseSign]
    split
    · simp [Nat.add_comm]
    · split
      · simp [Nat.add_comm]
      · simp

theorem parseExpSign_spec (l : List Char) :
    (parseExpSign l).2.1 ≤ 1 ∧ (parseExpSign l).2.1 + (parseExpSign l).2.2.length = l.length := by
  cases l with
  | nil => simp [parseExpSign]
  | cons c r =>
    simp only [parseExpSign]
    split
    · simp [Nat.add_comm]
    · split
      · simp [Nat.add_comm]
      · simp

theorem parseExp_spec (l : List Char) (e : Int) (n : Nat) (h : parseExp l = some (e, n)) :
    1 ≤ n ∧ n ≤ l.length := by
  cases l with
  | nil => simp [parseExp] at h
  | cons c r =>
    simp only [parseExp] at h
    by_cases hc : c = 'E' ∨ c = 'e'
    · rw [if_pos hc] at h
      have hs := parseExpSign_spec r
      have hds : ((parseExpSign r).2.2.takeWhile c_isdigit).length ≤ (parseExpSign r).2.2.length :=
        (List.takeWhile_prefix _).length_le
      by_cases hemp : ((parseExpSign r).2.2.takeWhile c_isdigit).isEmpty
      · rw [if_pos hemp] at h
        simp at h
      · rw [if_neg hemp] at h
        simp only [Option.some.injEq, Prod.mk.injEq] at h
        simp only [List.length_cons]
        omega
    · rw [if_neg hc] at h
      simp at h

theorem mantissaParse_spec (l : List Char) (v : ℚ) (n : Nat) (rem : List Char)
    (h : mantissaParse l = some (v, n, rem)) : 1 ≤ n ∧ n + rem.length = l.length := by
  simp only [mantissaParse] at h
  have h1 := length_takeWhile_add_dropWhile c_isdigit l
  by_cases hd : (l.dropWhile c_isdigit).head? = some '.'
  · rw [if_pos hd] at h
    have h2 := length_takeWhile_add_dropWhile c_isdigit (l.dropWhile c_isdigit).tail
    have h3 : (l.dropWhile c_isdigit).tail.length + 1 = (l.dropWhile c_isdigit).length := by
      cases hl2 : l.dropWhile c_isdigit with
      | nil => rw [hl2] at hd; simp at hd
      | cons a b => simp
    by_cases hemp : ((l.takeWhile c_isdigit).isEmpty &&
        ((l.dropWhile c_isdigit).tail.takeWhile c_isdigit).isEmpty : Bool)
    · rw [if_pos hemp] at h
      simp at h
    · rw [if_neg hemp] at h
      simp only [Option.some.injEq, Prod.mk.injEq] at h
      obtain ⟨hv, hn, hrem⟩ := h
      subst hrem
      omega
  · rw [if_neg hd] at h
    by_cases hemp : ((l.takeWhile c_isdigit).isEmpty : Bool)
    · rw [if_pos hemp] at h
      simp at h
    · rw [if_neg hemp] at h
      simp only [Option.some.injEq, Prod.mk.injEq] at h
      obtain ⟨hv, hn, hrem⟩ := h
      subst hrem
      have : ¬ (l.takeWhile c_isdigit).length = 0 := by
        intro h0
        exact hemp (by simpa [List.isEmpty_iff, List.length_eq_zero] using h0)
      omega

theorem matchCI_le {l pat : List Char} (h : matchCI l pat = true) : pat.length ≤ l.length := by
  have he : (l.take pat.length).map c_toupper = pat := by
    simpa [matchCI] using h
  have hl := congrArg List.length he
  simp only [List.length_map, List.length_take] at hl
  omega

theorem strtodAux_spec (l : List Char) (v : DVal) (n : Nat) (h : strtodAux l = some (v, n)) :
    1 ≤ n ∧ n ≤ l.length := by
  simp only [strtodAux] at h
  have hws := length_takeWhile_add_dropWhile c_isspace l
  obtain ⟨hs1, hs2⟩ := parseSign_spec (l.dropWhile c_isspace)
  by_cases hinf : matchCI (parseSign (l.dropWhile c_isspace)).2.2 ['I', 'N', 'F'] = true
  · rw [if_pos hinf] at h
    have h3 := matchCI_le hinf
    simp only [List.length_cons, List.length_nil] at h3
    simp only [Option.some.injEq, Prod.mk.injEq] at h
    obtain ⟨hv, hn⟩ := h
    by_cases hty : matchCI ((parseSign (l.dropWhile c_isspace)).2.2.drop 3)
        ['I', 'N', 'I', 'T', 'Y'] = true
    · rw [if_pos hty] at hn
      have h5 := matchCI_le hty
      rw [List.length_drop] at h5
      simp only [List.length_cons, List.length_nil] at h5
      omega
    · rw [if_neg hty] at hn
      omega
  · rw [if_neg hinf] at h
    by_cases hnan : matchCI (parseSign (l.dropWhile c_isspace)).2.2 ['N', 'A', 'N'] = true
    · rw [if_pos hnan] at h
      have h3 := matchCI_le hnan
      simp only [List.length_cons, List.length_nil] at h3
      simp only [Option.some.injEq, Prod.mk.injEq] at h
      omega
    · rw [if_neg hnan] at h
      match hm : mantissaParse (parseSign (l.dropWhile c_isspace)).2.2 with
      | none => rw [hm] at h; simp at h
      | some m =>
        obtain ⟨mv, mn, mrem⟩ := m
        simp only [hm] at h
        have hms := mantissaParse_spec _ _ _ _ hm
        match he : parseExp mrem with
        | some en =>
          obtain ⟨ev, ne⟩ := en
          have hes := parseExp_spec _ _ _ he
          simp only [he, Option.some.injEq, Prod.mk.injEq] at h
          omega
        | none =>
          simp only [he, Option.some.injEq, Prod.mk.injEq] at h
          omega

theorem strtodParse_spec (buf : List Char) (i : Nat) (v : DVal) (i' : Nat)
    (h : strtodParse buf i = some (v, i')) : i + 1 ≤ i' ∧ i' ≤ max buf.length i := by
  unfold strtodParse at h
  match haux : strtodAux (buf.drop i) with
  | none => rw [haux] at h; simp at h
  | some vn =>
    rw [haux] at h
    simp only [Option.map_some', Option.some.injEq, Prod.mk.injEq] at h
    have := strtodAux_spec _ _ _ haux
    rw [List.length_drop] at this
    omega

theorem gc_next_statement_some (buf : List Char) (i : Nat) (st st' : Status)
    (L : Char) (v f : DVal) (i' : Nat)
    (h : gc_next_statement buf i st = (some (L, v, f, i'), st')) :
    i < buf.length ∧ i + 2 ≤ i' ∧ i' ≤ buf.length ∧ st' = st := by
  simp only [gc_next_statement] at h
  by_cases hnul : buf.getD i '\x00' = '\x00'
  · rw [if_pos hnul] at h
    simp at h
  · rw [if_neg hnul] at h
    have hlt : i < buf.length := by
      by_contra hge
      exact hnul (List.getD_eq_default _ _ (by omega))
    by_cases hup : c_isupper (buf.getD i '\x00') = true
    · rw [if_neg (not_not_intro hup)] at h
      match hp : strtodParse buf (i + 1) with
      | none => rw [hp] at h; simp at h
      | some vi =>
        rw [hp] at h
        simp only [Prod.mk.injEq, Option.some.injEq] at h
        have hb := strtodParse_spec buf (i + 1) vi.1 vi.2 hp
        obtain ⟨⟨hL, hv, hf, hi⟩, hst⟩ := h
        refine ⟨hlt, by omega, by omega, hst.symm⟩
    · rw [if_pos (by simpa using hup)] at h
      simp at h

/-! ### Modal State Accumulator (`_gc_parse_gcode_block`, gcode.c lines 253-341)

The `SET_NEXT_STATE(a, v)` macro assigns `gn.a = v; gf.a = 1` and breaks out
of the switch; `SET_NEXT_ACTION_MOTION(a, v)` additionally sets
`gn.next_action = NEXT_ACTION_MOTION; gf.next_action = 1`.  One helper per
assigned field keeps the macro expansions small. -/

def SET_motion (mm : MotionMode) (gn : GCodeModel) (gf : GCodeFlags) (st : Status) :
    GCodeModel × GCodeFlags × Status :=
  ({gn with motion_mode := mm, next_action := .NEXT_ACTION_MOTION},
   {gf with motion_mode := true, next_action := true}, st)

def SET_next_action (na : NextAction) (gn : GCodeModel) (gf : GCodeFlags) (st : Status) :
    GCodeModel × GCodeFlags × Status :=
  ({gn with next_action := na}, {gf with next_action := true}, st)

def SET_motion_mode (mm : MotionMode) (gn : GCodeModel) (gf : GCodeFlags) (st : Status) :
    GCodeModel × GCodeFlags × Status :=
  ({gn with motion_mode := mm}, {gf with motion_mode := true}, st)

def SET_set_plane (p : CanonPlane) (gn : GCodeModel) (gf : GCodeFlags) (st : Status) :
    GCodeModel × GCodeFlags × Status :=
  ({gn with set_plane := p}, {gf with set_plane := true}, st)

def SET_inches_mode (b : Bool) (gn : GCodeModel) (gf : GCodeFlags) (st : Status) :
    GCodeModel × GCodeFlags × Status :=
  ({gn with inches_mode := b}, {gf with inches_mode := true}, st)

def SET_absolute_mode (b : Bool) (gn : GCodeModel) (gf : GCodeFlags) (st : Status) :
    GCodeModel × GCodeFlags × Status :=
  ({gn with absolute_mode := b}, {gf with absolute_mode := true}, st)

def SET_absolute_override (b : Bool) (gn : GCodeModel) (gf : GCodeFlags) (st : Status) :
    GCodeModel × GCodeFlags × Status :=
  ({gn with absolute_override := b}, {gf with absolute_override := true}, st)

def SET_set_origin_mode (b : Bool) (gn : GCodeModel) (gf : GCodeFlags) (st : Status) :
    GCodeModel × GCodeFlags × Status :=
  ({gn with set_origin_mode := b}, {gf with set_origin_mode := true}, st)

def SET_inverse_feed_rate_mode (b : Bool) (gn : GCodeModel) (gf : GCodeFlags) (st : Status) :
    GCodeModel × GCodeFlags × Status :=
  ({gn with inverse_feed_rate_mode := b}, {gf with inverse_feed_rate_mode := true}, st)

def SET_program_flow (pf : ProgramFlow) (gn : GCodeModel) (gf : GCodeFlags) (st : Status) :
    GCodeModel × GCodeFlags × Status :=
  ({gn with program_flow := pf}, {gf with program_flow := true}, st)

def SET_spindle_mode (sm : SpindleMode) (gn : GCodeModel) (gf : GCodeFlags) (st : Status) :
    GCodeModel × GCodeFlags × Status :=
  ({gn with spindle_mode := sm}, {gf with spindle_mode := true}, st)

def SET_change_tool (b : Bool) (gn : GCodeModel) (gf : GCodeFlags) (st : Status) :
    GCodeModel × GCodeFlags × Status :=
  ({gn with change_tool := b}, {gf with change_tool := true}, st)

def SET_tool (v : DVal) (gn : GCodeModel) (gf : GCodeFlags) (st : Status) :
    GCodeModel × GCodeFlags × Status :=
  ({gn with tool := v}, {gf with tool := true}, st)

def SET_feed_rate (v : DVal) (gn : GCodeModel) (gf : GCodeFlags) (st : Status) :
    GCodeModel × GCodeFlags × Status :=
  ({gn with feed_rate := v}, {gf with feed_rate := true}, st)

def SET_dwell_time (v : DVal) (gn : GCodeModel) (gf : GCodeFlags) (st : Status) :
    GCodeModel × GCodeFlags × Status :=
  ({gn with dwell_time := v}, {gf with dwell_time := true}, st)

def SET_spindle_speed (v : DVal) (gn : GCodeModel) (gf : GCodeFlags) (st : Status) :
    GCodeModel × GCodeFlags × Status :=
  ({gn with spindle_speed := v}, {gf with spindle_speed := true}, st)

def SET_target_X (v : DVal) (gn : GCodeModel) (gf : GCodeFlags) (st : Status) :
    GCodeModel × GCodeFlags × Status :=
  ({gn with target_X := v}, {gf with target_X := true}, st)

def SET_target_Y (v : DVal) (gn : GCodeModel) (gf : GCodeFlags) (st : Status) :
    GCodeModel × GCodeFlags × Status :=
  ({gn with target_Y := v}, {gf with target_Y := true}, st)

def SET_target_Z (v : DVal) (gn : GCodeModel) (gf : GCodeFlags) (st : Status) :
    GCodeModel × GCodeFlags × Status :=
  ({gn with target_Z := v}, {gf with target_Z := true}, st)

def SET_offset_0 (v : DVal) (gn : GCodeModel) (gf : GCodeFlags) (st : Status) :
    GCodeModel × GCodeFlags × Status :=
  ({gn with offset_0 := v}, {gf with offset_0 := true}, st)

def SET_offset_1 (v : DVal) (gn : GCodeModel) (gf : GCodeFlags) (st : Status) :
    GCodeModel × GCodeFlags × Status :=
  ({gn with offset_1 := v}, {gf with offset_1 := true}, st)

def SET_offset_2 (v : DVal) (gn : GCodeModel) (gf : GCodeFlags) (st : Status) :
    GCodeModel × GCodeFlags × Status :=
  ({gn with offset_2 := v}, {gf with offset_2 := true}, st)

def SET_radius (v : DVal) (gn : GCodeModel) (gf : GCodeFlags) (st : Status) :
    GCodeModel × GCodeFlags × Status :=
  ({gn with radius := v}, {gf with radius := true}, st)

/-- The inner `switch((int)gp.value)` for a G word (lines 275-299); the
`break` cases for G40, G49 and G61 are explicit no-ops. -/
def applyStatementG (g : Int) (gn : GCodeModel) (gf : GCodeFlags) (st : Status) :
    GCodeModel × GCodeFlags × Status :=
  match g with
  | 0 => SET_motion .MOTION_MODE_STRAIGHT_TRAVERSE gn gf st
  | 1 => SET_motion .MOTION_MODE_STRAIGHT_FEED gn gf st
  | 2 => SET_motion .MOTION_MODE_CW_ARC gn gf st
  | 3 => SET_motion .MOTION_MODE_CCW_ARC gn gf st
  | 4 => SET_next_action .NEXT_ACTION_DWELL gn gf st
  | 17 => SET_set_plane .CANON_PLANE_XY gn gf st
  | 18 => SET_set_plane .CANON_PLANE_XZ gn gf st
  | 19 => SET_set_plane .CANON_PLANE_YZ gn gf st
  | 20 => SET_inches_mode true gn gf st
  | 21 => SET_inches_mode false gn gf st
  | 28 => SET_next_action .NEXT_ACTION_GO_HOME gn gf st
  | 30 => SET_next_action .NEXT_ACTION_GO_HOME gn gf st
  | 53 => SET_absolute_override true gn gf st
  | 80 => SET_motion_mode .MOTION_MODE_CANCEL_MOTION_MODE gn gf st
  | 90 => SET_absolute_mode true gn gf st
  | 91 => SET_absolute_mode false gn gf st
  | 92 => SET_set_origin_mode true gn gf st
  | 93 => SET_inverse_feed_rate_mode true gn gf st
  | 94 => SET_inverse_feed_rate_mode false gn gf st
  | 40 => (gn, gf, st)
  | 49 => (gn, gf, st)
  | 61 => (gn, gf, st)
  | _ => (gn, gf, .TG_UNSUPPORTED_STATEMENT)

/-- The inner `switch((int)gp.value)` for an M word (lines 302-319). -/
def applyStatementM (m : Int) (gn : GCodeModel) (gf : GCodeFlags) (st : Status) :
    GCodeModel × GCodeFlags × Status :=
  match m with
  | 0 => SET_program_flow .PROGRAM_FLOW_STOP gn gf st
  | 1 => SET_program_flow .PROGRAM_FLOW_STOP gn gf st
  | 2 => SET_program_flow .PROGRAM_FLOW_END gn gf st
  | 30 => SET_program_flow .PROGRAM_FLOW_END gn gf st
  | 60 => SET_program_flow .PROGRAM_FLOW_END gn gf st
  | 3 => SET_spindle_mode .SPINDLE_CW gn gf st
  | 4 => SET_spindle_mode .SPINDLE_CCW gn gf st
  | 5 => SET_spindle_mode .SPINDLE_OFF gn gf st
  | 6 => SET_change_tool true gn gf st
  | 7 => (gn, gf, st)
  | 8 => (gn, gf, st)
  | 9 => (gn, gf, st)
  | 48 => (gn, gf, st)
  | 49 => (gn, gf, st)
  | _ => (gn, gf, .TG_UNSUPPORTED_STATEMENT)

/-- The outer `switch(gp.letter)` (lines 273-334).  The G and M branches
switch on `(int)gp.value`; converting a non-finite double to an integer is
undefined behaviour (C99 6.3.1.4p1), and the model sends such a value to the
switch's `default` branch.  No theorem below depends on that choice: every
branch of either switch leaves `TG_QUIT` unproduced and
`NEXT_ACTION_OFFSET_COORDINATES` unassigned, which is all the parse-level
claims use of it. -/
def applyStatement (letter : Char) (v : DVal) (gn : GCodeModel) (gf : GCodeFlags) (st : Status) :
    GCodeModel × GCodeFlags × Status :=
  match letter with
  | 'G' =>
    match v with
    | .fin q => applyStatementG (ratTruncInt q) gn gf st
    | _ => (gn, gf, .TG_UNSUPPORTED_STATEMENT)
  | 'M' =>
    match v with
    | .fin q => applyStatementM (ratTruncInt q) gn gf st
    | _ => (gn, gf, .TG_UNSUPPORTED_STATEMENT)
  | 'T' => SET_tool (DVal.trunc v) gn gf st
  | 'F' => SET_feed_rate v gn gf st
  | 'P' => SET_dwell_time v gn gf st
  | 'S' => SET_spindle_speed v gn gf st
  | 'X' => SET_target_X v gn gf st
  | 'Y' => SET_target_Y v gn gf st
  | 'Z' => SET_target_Z v gn gf st
  | 'I' => SET_offset_0 v gn gf st
  | 'J' => SET_offset_1 v gn gf st
  | 'K' => SET_offset_2 v gn gf st
  | 'R' => SET_radius v gn gf st
  | 'N' => (gn, gf, st)
  | _ => (gn, gf, .TG_UNSUPPORTED_STATEMENT)

/-- The statement loop of `_gc_parse_gcode_block` (lines 272-338): repeatedly
tokenize and apply statements; an error status from the switch breaks the
loop (`if (gp.status) break`), and an error from the tokenizer ends it with
that status.  The `fuel` argument only makes the recursion structural: every
successful tokenizer call advances the cursor by at least two characters
(`gc_next_statement_some`), so any fuel exceeding `buf.length - i` gives the
same result as the C loop (`parseLoop_fuel` below). -/
def parseLoop (buf : List Char) : Nat → GCodeModel → GCodeFlags → Status → Nat →
    GCodeModel × GCodeFlags × Status
  | 0, gn, gf, st, _ => (gn, gf, st)
  | fuel + 1, gn, gf, st, i =>
    match gc_next_statement buf i st with
    | (none, st') => (gn, gf, st')
    | (some s, st') =>
      let r := applyStatement s.1 s.2.1 gn gf st'
      if r.2.2 ≠ Status.TG_OK then r
      else parseLoop buf fuel r.1 r.2.1 r.2.2 s.2.2.2

/-- Any two sufficient fuels give the same parse: the fuel cutoff of
`parseLoop` is unreachable, so the model agrees with the unbounded C loop. -/
theorem parseLoop_fuel (buf : List Char) : ∀ f1 f2 gn gf st i,
    buf.length - i < f1 → buf.length - i < f2 →
    parseLoop buf f1 gn gf st i = parseLoop buf f2 gn gf st i := by
  intro f1
  induction f1 with
  | zero => intro f2 gn gf st i h1 h2; omega
  | succ f1 ih =>
    intro f2 gn gf st i h1 h2
    match f2 with
    | 0 => omega
    | f2 + 1 =>
      simp only [parseLoop]
      cases hstmt : gc_next_statement buf i st with
      | mk o st' =>
        cases o with
        | none => rfl
        | some s =>
          have hb := gc_next_statement_some buf i st st' s.1 s.2.1 s.2.2.1 s.2.2.2 (by
            rw [hstmt])
          simp only []
          split
          · rfl
          · exact ih f2 _ _ _ _ (by omega) (by omega)

/-! ### Canonical-machine interface and Execution Dispatcher
(`_gc_execute_gcode_block`, gcode.c lines 378-470)

The canonical machine is an external collaborator; a dispatch run is modelled
as the list of calls issued to it (the trace) together with the status each
call returns, supplied by an oracle `resp : CMCall → Status`. -/

/-- One call into the canonical-machine interface, with its arguments. -/
inductive CMCall
  | set_inverse_feed_rate_mode (b : Bool)
  | set_feed_rate (v : DVal)
  | set_spindle_speed (v : DVal)
  | select_tool (v : DVal)
  | change_tool (v : DVal)
  | start_spindle_clockwise
  | start_spindle_counterclockwise
  | stop_spindle_turning
  | dwell (t : DVal)
  | select_plane (p : CanonPlane)
  | use_length_units (b : Bool)
  | set_distance_mode (b : Bool)
  | return_to_home
  | set_origin_offsets (x y z : DVal)
  | straight_traverse (x y z : DVal)
  | straight_feed (x y z : DVal)
  | arc_feed (x y z o0 o1 o2 r : DVal) (mode : MotionMode)
  deriving DecidableEq

/-- One guarded dispatch step of `_gc_execute_gcode_block`.  `capture` is true
when the C code assigns the call's return value to `gp.status` and returns on
non-OK (the `CALL_CM_FUNC` macro and the dwell/home/offset/motion blocks);
the three spindle calls of lines 396-404 ignore their return value.
`terminal` is true for the three motion blocks, which return even on OK. -/
structure Gate where
  guard : Bool
  call : CMCall
  capture : Bool
  terminal : Bool
  deriving DecidableEq

/-- Running status and trace of calls made so far. -/
abbrev ExecSt := Status × List CMCall

/-- Run the dispatch steps in order: a guarded step issues its call, a
captured non-OK status or a terminal step ends the run early
(`Except.error` is the C early `return`). -/
def runGatesE (resp : CMCall → Status) : List Gate → ExecSt → Except ExecSt ExecSt
  | [], s => .ok s
  | g :: gs, s =>
    if g.guard then
      let st' := if g.capture then resp g.call else s.1
      let tr' := s.2 ++ [g.call]
      if g.terminal then .error (st', tr')
      else if g.capture ∧ st' ≠ Status.TG_OK then .error (st', tr')
      else runGatesE resp gs (st', tr')
    else runGatesE resp gs s

/-- Collapse the early-return/fall-through distinction into the final state. -/
def execResult : Except ExecSt ExecSt → ExecSt
  | .ok r => r
  | .error r => r

/-- The dispatch sequence of `_gc_execute_gcode_block`, one `Gate` per block
of C code, in source order (lines 389-468):
`CALL_CM_FUNC` steps for inverse-feed-rate-mode, feed-rate, spindle-speed,
select-tool and change-tool (the change-tool call is guarded by `gf.tool` and
passes `gn.tool`, exactly as in line 393), the spindle branch, the dwell,
plane, units and distance-mode steps, the homing cycle, the axis-offset step
and the three motion blocks. -/
def gates (gn : GCodeModel) (gf : GCodeFlags) : List Gate :=
  [⟨gf.inverse_feed_rate_mode, .set_inverse_feed_rate_mode gn.inverse_feed_rate_mode, true, false⟩,
   ⟨gf.feed_rate, .set_feed_rate gn.feed_rate, true, false⟩,
   ⟨gf.spindle_speed, .set_spindle_speed gn.spindle_speed, true, false⟩,
   ⟨gf.tool, .select_tool gn.tool, true, false⟩,
   ⟨gf.tool, .change_tool gn.tool, true, false⟩,
   ⟨gf.spindle_mode,
    (if gn.spindle_mode = .SPINDLE_CW then .start_spindle_clockwise
     else if gn.spindle_mode = .SPINDLE_CCW then .start_spindle_counterclockwise
     else .stop_spindle_turning), false, false⟩,
   ⟨decide (gn.next_action = .NEXT_ACTION_DWELL), .dwell gn.dwell_time, true, false⟩,
   ⟨gf.set_plane, .select_plane gn.set_plane, true, false⟩,
   ⟨gf.inches_mode, .use_length_units gn.inches_mode, true, false⟩,
   ⟨gf.absolute_mode, .set_distance_mode gn.absolute_mode, true, false⟩,
   ⟨decide (gn.next_action = .NEXT_ACTION_GO_HOME), .return_to_home, true, false⟩,
   ⟨decide (gn.next_action = .NEXT_ACTION_OFFSET_COORDINATES),
    .set_origin_offsets gn.target_X gn.target_Y gn.target_Z, true, false⟩,
   ⟨decide (gn.next_action = .NEXT_ACTION_MOTION ∧ gn.motion_mode = .MOTION_MODE_STRAIGHT_TRAVERSE),
    .straight_traverse gn.target_X gn.target_Y gn.target_Z, true, true⟩,
   ⟨decide (gn.next_action = .NEXT_ACTION_MOTION ∧ gn.motion_mode = .MOTION_MODE_STRAIGHT_FEED),
    .straight_feed gn.target_X gn.target_Y gn.target_Z, true, true⟩,
   ⟨decide (gn.next_action = .NEXT_ACTION_MOTION ∧
      (gn.motion_mode = .MOTION_MODE_CW_ARC ∨ gn.motion_mode = .MOTION_MODE_CCW_ARC)),
    .arc_feed gn.target_X gn.target_Y gn.target_Z gn.offset_0 gn.offset_1 gn.offset_2
      gn.radius gn.motion_mode, true, true⟩]

/-- `_gc_execute_gcode_block`: run the gates starting from the status left by
the parse (`gp.status` is a single variable threaded through both phases);
the final `return (gp.status)` of line 469 is the fall-through result. -/
def gc_execute_gcode_block (resp : CMCall → Status) (gn : GCodeModel) (gf : GCodeFlags)
    (st0 : Status) : Status × List CMCall :=
  execResult (runGatesE resp (gates gn gf) (st0, []))

/-- `_gc_parse_gcode_block` (lines 253-341): zero `gn`/`gf`, pre-seed
next-action, motion mode and the target from Persistent Machine State, run
the statement loop, then unconditionally execute the block (line 339 calls
`_gc_execute_gcode_block()` whatever `gp.status` is). -/
def gc_parse_gcode_block (resp : CMCall → Status) (pms : PersistentMachine) (buf : List Char) :
    Status × List CMCall :=
  let gn0 : GCodeModel :=
    { next_action := pms.next_action, motion_mode := pms.motion_mode,
      target_X := pms.pos_X, target_Y := pms.pos_Y, target_Z := pms.pos_Z }
  let r := parseLoop buf (buf.length + 1) gn0 {} Status.TG_OK 0
  gc_execute_gcode_block resp r.1 r.2.1 r.2.2

/-- The C entry point (gcode.c lines 95-108): normalize in place,
return OK on an empty (comment or deleted) block, return QUIT when the first
character of the normalized command is `Q`, otherwise parse and execute.
Returns the status, the canonical-machine call trace and the message emitted
during normalization (if any). -/
def gc_gcode_entry (resp : CMCall → Status) (pms : PersistentMachine) (block : List Char) :
    Status × List CMCall × Option (List Char) :=
  let n := gc_normalize_gcode_block block
  if n.1.isEmpty then (Status.TG_OK, [], n.2)
  else if n.1.head? = some 'Q' then (Status.TG_QUIT, [], n.2)
  else
    let r := gc_parse_gcode_block resp pms n.1
    (r.1, r.2, n.2)

/-- A canonical machine that accepts every call. -/
def okResp : CMCall → Status := fun _ => Status.TG_OK

/-- A persistent state with no pending action and the origin as position. -/
def pmsNone : PersistentMachine :=
  ⟨.NEXT_ACTION_NONE, .MOTION_MODE_CANCEL_MOTION_MODE, 0, 0, 0⟩

example : gc_gcode_entry okResp pmsNone ("G1 X10 Y20 F500" : String).toList =
    (Status.TG_OK, [.set_feed_rate 500, .straight_feed 10 20 0], none) := by decide

example : gc_gcode_entry okResp pmsNone ("Q" : String).toList =
    (Status.TG_QUIT, [], none) := by decide

example : gc_gcode_entry okResp pmsNone ("Q10" : String).toList =
    (Status.TG_QUIT, [], none) := by decide

example : gc_gcode_entry okResp pmsNone ("G500" : String).toList =
    (Status.TG_UNSUPPORTED_STATEMENT, [], none) := by decide

example : gc_gcode_entry okResp pmsNone ("F100G500" : String).toList =
    (Status.TG_OK, [.set_feed_rate 100], none) := by decide

example : gc_gcode_entry okResp pmsNone ("T7" : String).toList =
    (Status.TG_OK, [.select_tool 7, .change_tool 7], none) := by decide

example : gc_gcode_entry okResp pmsNone ("M6" : String).toList =
    (Status.TG_OK, [], none) := by decide

/-! ### Generic facts about the dispatch runner -/

/-- The three spindle calls of lines 396-404 are the only calls whose return
status the C code ignores. -/
def isSpindleCall : CMCall → Bool
  | .start_spindle_clockwise => true
  | .start_spindle_counterclockwise => true
  | .stop_spindle_turning => true
  | _ => false

/-- The three motion calls of step 13 (lines 446-468). -/
def isMotionCall : CMCall → Bool
  | .straight_traverse _ _ _ => true
  | .straight_feed _ _ _ => true
  | .arc_feed _ _ _ _ _ _ _ _ => true
  | _ => false

/-- The fixed priority of each canonical-machine call, numbered after the
spec's dispatch steps 1-13. -/
def gatePrio : CMCall → Nat
  | .set_inverse_feed_rate_mode _ => 1
  | .set_feed_rate _ => 2
  | .set_spindle_speed _ => 3
  | .select_tool _ => 4
  | .change_tool _ => 5
  | .start_spindle_clockwise => 6
  | .start_spindle_counterclockwise => 6
  | .stop_spindle_turning => 6
  | .dwell _ => 7
  | .select_plane _ => 8
  | .use_length_units _ => 9
  | .set_distance_mode _ => 10
  | .return_to_home => 11
  | .set_origin_offsets _ _ _ => 12
  | .straight_traverse _ _ _ => 13
  | .straight_feed _ _ _ => 13
  | .arc_feed _ _ _ _ _ _ _ _ => 13

theorem runGatesE_trace_extend (resp : CMCall → Status) :
    ∀ (gs : List Gate) (s : ExecSt), ∃ ext, (execResult (runGatesE resp gs s)).2 = s.2 ++ ext := by
  intro gs
  induction gs with
  | nil => intro s; exact ⟨[], by simp [runGatesE, execResult]⟩
  | cons g gs ih =>
    intro s
    simp only [runGatesE]
    by_cases hg : g.guard = true
    · rw [if_pos hg]
      by_cases ht : g.terminal = true
      · rw [if_pos ht]
        exact ⟨[g.call], rfl⟩
      · rw [if_neg ht]
        by_cases hc : g.capture = true ∧ (if g.capture = true then resp g.call else s.1) ≠ Status.TG_OK
        · rw [if_pos hc]
          exact ⟨[g.call], rfl⟩
        · rw [if_neg hc]
          obtain ⟨ext, hext⟩ := ih ((if g.capture = true then resp g.call else s.1), s.2 ++ [g.call])
          exact ⟨[g.call] ++ ext, by rw [hext, List.append_assoc]⟩
    · rw [if_neg hg]
      exact ih s

theorem runGatesE_mem_calls (resp : CMCall → Status) :
    ∀ (gs : List Gate) (s : ExecSt) (c : CMCall),
    c ∈ (execResult (runGatesE resp gs s)).2 →
    c ∈ s.2 ∨ ∃ g, g ∈ gs ∧ g.guard = true ∧ c = g.call := by
  intro gs
  induction gs with
  | nil =>
    intro s c hc
    exact Or.inl (by simpa [runGatesE, execResult] using hc)
  | cons g gs ih =>
    intro s c hc
    simp only [runGatesE] at hc
    by_cases hg : g.guard = true
    · rw [if_pos hg] at hc
      by_cases ht : g.terminal = true
      · rw [if_pos ht] at hc
        simp only [execResult, List.mem_append, List.mem_singleton] at hc
        rcases hc with hc | hc
        · exact Or.inl hc
        · exact Or.inr ⟨g, List.mem_cons_self g gs, hg, hc⟩
      · rw [if_neg ht] at hc
        by_cases hcap : g.capture = true ∧ (if g.capture = true then resp g.call else s.1) ≠ Status.TG_OK
        · rw [if_pos hcap] at hc
          simp only [execResult, List.mem_append, List.mem_singleton] at hc
          rcases hc with hc | hc
          · exact Or.inl hc
          · exact Or.inr ⟨g, List.mem_cons_self g gs, hg, hc⟩
        · rw [if_neg hcap] at hc
          rcases ih _ c hc with hc | ⟨g', hg', hgu, hcall⟩
          · simp only [List.mem_append, List.mem_singleton] at hc
            rcases hc with hc | hc
            · exact Or.inl hc
            · exact Or.inr ⟨g, List.mem_cons_self g gs, hg, hc⟩
          · exact Or.inr ⟨g', List.mem_cons_of_mem g hg', hgu, hcall⟩
    · rw [if_neg hg] at hc
      rcases ih s c hc with hc | ⟨g', hg', hgu, hcall⟩
      · exact Or.inl hc
      · exact Or.inr ⟨g', List.mem_cons_of_mem g hg', hgu, hcall⟩

theorem runGatesE_ok_guard_mem (resp : CMCall → Status) :
    ∀ (gs : List Gate) (s r : ExecSt), runGatesE resp gs s = .ok r →
    ∀ g ∈ gs, g.guard = true → g.call ∈ r.2 := by
  intro gs
  induction gs with
  | nil => intro s r _ g hg; simp at hg
  | cons g0 gs ih =>
    intro s r hok g hg hgu
    simp only [runGatesE] at hok
    by_cases hg0 : g0.guard = true
    · rw [if_pos hg0] at hok
      by_cases ht : g0.terminal = true
      · rw [if_pos ht] at hok
        exact absurd hok (by simp)
      · rw [if_neg ht] at hok
        by_cases hcap : g0.capture = true ∧ (if g0.capture = true then resp g0.call else s.1) ≠ Status.TG_OK
        · rw [if_pos hcap] at hok
          exact absurd hok (by simp)
        · rw [if_neg hcap] at hok
          rcases List.mem_cons.mp hg with rfl | hg'
          · have hmem : g.call ∈ (s.2 ++ [g.call]) := by simp
            obtain ⟨ext, hext⟩ : ∃ ext, r.2 = (s.2 ++ [g.call]) ++ ext := by
              have h := runGatesE_trace_extend resp gs
                ((if g.capture = true then resp g.call else s.1), s.2 ++ [g.call])
              obtain ⟨ext, hext⟩ := h
              rw [hok] at hext
              exact ⟨ext, hext⟩
            rw [hext]
            exact List.mem_append_left _ hmem
          · exact ih _ r hok g hg' hgu
    · rw [if_neg hg0] at hok
      rcases List.mem_cons.mp hg with rfl | hg'
      · exact absurd hgu (by simp [hg0])
      · exact ih s r hok g hg' hgu

theorem runGatesE_status_src (resp : CMCall → Status) :
    ∀ (gs : List Gate) (s : ExecSt),
    (execResult (runGatesE resp gs s)).1 = s.1 ∨
    ∃ c, (execResult (runGatesE resp gs s)).1 = resp c := by
  intro gs
  induction gs with
  | nil => intro s; exact Or.inl (by simp [runGatesE, execResult])
  | cons g gs ih =>
    intro s
    simp only [runGatesE]
    by_cases hg : g.guard = true
    · rw [if_pos hg]
      by_cases ht : g.terminal = true
      · rw [if_pos ht]
        by_cases hcap : g.capture = true
        · exact Or.inr ⟨g.call, by simp [execResult, hcap]⟩
        · simp only [execResult, hcap, if_false]
          exact Or.inl rfl
      · rw [if_neg ht]
        by_cases hc : g.capture = true ∧ (if g.capture = true then resp g.call else s.1) ≠ Status.TG_OK
        · rw [if_pos hc]
          exact Or.inr ⟨g.call, by simp [execResult, hc.1]⟩
        · rw [if_neg hc]
          rcases ih ((if g.capture = true then resp g.call else s.1), s.2 ++ [g.call]) with h | ⟨c, hch⟩
          · by_cases hcap : g.capture = true
            · exact Or.inr ⟨g.call, by rw [h]; simp [hcap]⟩
            · exact Or.inl (by rw [h]; simp [hcap])
          · exact Or.inr ⟨c, hch⟩
    · rw [if_neg hg]
      exact ih s

theorem append_singleton_eq {α : Type} (l tr1 tr2 : List α) (a c : α)
    (h : l ++ [a] = tr1 ++ c :: tr2) (hc : c ∉ l) : tr2 = [] ∧ c = a := by
  induction tr1 generalizing l with
  | nil =>
    cases l with
    | nil =>
      simp only [List.nil_append] at h
      exact ⟨(List.cons.injEq _ _ _ _ ▸ h).2.symm, ((List.cons.injEq _ _ _ _ ▸ h).1).symm⟩
    | cons x l' =>
      simp only [List.cons_append, List.nil_append] at h
      have hx : x = c := (List.cons.injEq _ _ _ _ ▸ h).1
      exact absurd (hx ▸ List.mem_cons_self x l') hc
  | cons t tr1' ih =>
    cases l with
    | nil =>
      simp only [List.nil_append, List.cons_append] at h
      have h2 := (List.cons.injEq _ _ _ _ ▸ h).2
      exact absurd h2.symm (by simp)
    | cons x l' =>
      simp only [List.cons_append] at h
      have h2 := (List.cons.injEq _ _ _ _ ▸ h).2
      exact ih l' h2 (fun hm => hc (List.mem_cons_of_mem x hm))

theorem runGatesE_abort (resp : CMCall → Status) :
    ∀ (gs : List Gate) (s : ExecSt),
    (∀ g ∈ gs, g.capture = !isSpindleCall g.call) →
    (∀ c ∈ s.2, isSpindleCall c = false → resp c = Status.TG_OK) →
    ∀ c tr1 tr2, (execResult (runGatesE resp gs s)).2 = tr1 ++ c :: tr2 →
    isSpindleCall c = false → resp c ≠ Status.TG_OK →
    tr2 = [] ∧ (execResult (runGatesE resp gs s)).1 = resp c := by
  intro gs
  induction gs with
  | nil =>
    intro s hcoh hinv c tr1 tr2 htr hsp hbad
    simp only [runGatesE, execResult] at htr ⊢
    have : c ∈ s.2 := htr ▸ List.mem_append_right tr1 (List.mem_cons_self c tr2)
    exact absurd (hinv c this hsp) hbad
  | cons g gs ih =>
    intro s hcoh hinv c tr1 tr2 htr hsp hbad
    have hcnotin : c ∉ s.2 := fun hm => hbad (hinv c hm hsp)
    simp only [runGatesE] at htr ⊢
    by_cases hg : g.guard = true
    · rw [if_pos hg] at htr ⊢
      by_cases ht : g.terminal = true
      · rw [if_pos ht] at htr ⊢
        simp only [execResult] at htr ⊢
        obtain ⟨h2, rfl⟩ := append_singleton_eq s.2 tr1 tr2 g.call c htr hcnotin
        refine ⟨h2, ?_⟩
        have hcap : g.capture = true := by
          have := hcoh g (List.mem_cons_self g gs)
          rw [this, hsp]
          rfl
        simp [hcap]
      · rw [if_neg ht] at htr ⊢
        by_cases hcap : g.capture = true ∧ (if g.capture = true then resp g.call else s.1) ≠ Status.TG_OK
        · rw [if_pos hcap] at htr ⊢
          simp only [execResult] at htr ⊢
          obtain ⟨h2, rfl⟩ := append_singleton_eq s.2 tr1 tr2 g.call c htr hcnotin
          exact ⟨h2, by simp [hcap.1]⟩
        · rw [if_neg hcap] at htr ⊢
          refine ih _ ?_ ?_ c tr1 tr2 htr hsp hbad
          · intro g' hg'
            exact hcoh g' (List.mem_cons_of_mem g hg')
          · intro c' hc' hsp'
            simp only [List.mem_append, List.mem_singleton] at hc'
            rcases hc' with hc' | rfl
            · exact hinv c' hc' hsp'
            · have hcap' : g.capture = true := by
                have := hcoh g (List.mem_cons_self g gs)
                rw [this, hsp']
                rfl
              by_contra hne
              exact hcap ⟨hcap', by simp [hcap', hne]⟩
    · rw [if_neg hg] at htr ⊢
      exact ih s (fun g' hg' => hcoh g' (List.mem_cons_of_mem g hg')) hinv c tr1 tr2 htr hsp hbad

theorem runGatesE_sorted (resp : CMCall → Status) :
    ∀ (gs : List Gate) (s : ExecSt),
    s.2.Pairwise (fun a b => gatePrio a ≤ gatePrio b) →
    (∀ c ∈ s.2, ∀ g ∈ gs, gatePrio c ≤ gatePrio g.call) →
    gs.Pairwise (fun g1 g2 => gatePrio g1.call ≤ gatePrio g2.call) →
    (execResult (runGatesE resp gs s)).2.Pairwise (fun a b => gatePrio a ≤ gatePrio b) := by
  intro gs
  induction gs with
  | nil =>
    intro s hs _ _
    simpa [runGatesE, execResult] using hs
  | cons g gs ih =>
    intro s hs hb hg
    have hnew : (s.2 ++ [g.call]).Pairwise (fun a b => gatePrio a ≤ gatePrio b) := by
      rw [List.pairwise_append]
      exact ⟨hs, List.pairwise_singleton _ _,
        fun a ha b hb' => (List.mem_singleton.mp hb') ▸ hb a ha g (List.mem_cons_self g gs)⟩
    simp only [runGatesE]
    by_cases hgu : g.guard = true
    · rw [if_pos hgu]
      by_cases ht : g.terminal = true
      · rw [if_pos ht]
        simpa [execResult] using hnew
      · rw [if_neg ht]
        by_cases hcap : g.capture = true ∧ (if g.capture = true then resp g.call else s.1) ≠ Status.TG_OK
        · rw [if_pos hcap]
          simpa [execResult] using hnew
        · rw [if_neg hcap]
          refine ih _ hnew ?_ (List.Pairwise.of_cons hg)
          intro c hc g' hg'
          simp only [List.mem_append, List.mem_singleton] at hc
          rcases hc with hc | rfl
          · exact hb c hc g' (List.mem_cons_of_mem g hg')
          · exact (List.pairwise_cons.mp hg).1 g' hg'
    · rw [if_neg hgu]
      exact ih s hs (fun c hc g' hg' => hb c hc g' (List.mem_cons_of_mem g hg'))
        (List.Pairwise.of_cons hg)

theorem runGatesE_motion_last (resp : CMCall → Status) :
    ∀ (gs : List Gate) (s : ExecSt),
    (∀ g ∈ gs, isMotionCall g.call = g.terminal) →
    (∀ g ∈ gs, g.terminal = true → g.capture = true) →
    (∀ c ∈ s.2, isMotionCall c = false) →
    ∀ c tr1 tr2, (execResult (runGatesE resp gs s)).2 = tr1 ++ c :: tr2 →
    isMotionCall c = true →
    tr2 = [] ∧ (execResult (runGatesE resp gs s)).1 = resp c := by
  intro gs
  induction gs with
  | nil =>
    intro s _ _ hinv c tr1 tr2 htr hm
    simp only [runGatesE, execResult] at htr ⊢
    have : c ∈ s.2 := htr ▸ List.mem_append_right tr1 (List.mem_cons_self c tr2)
    rw [hinv c this] at hm
    exact absurd hm (by simp)
  | cons g gs ih =>
    intro s hmot hcap hinv c tr1 tr2 htr hm
    have hcnotin : c ∉ s.2 := fun hmm => by rw [hinv c hmm] at hm; exact absurd hm (by simp)
    simp only [runGatesE] at htr ⊢
    by_cases hg : g.guard = true
    · rw [if_pos hg] at htr ⊢
      by_cases ht : g.terminal = true
      · rw [if_pos ht] at htr ⊢
        simp only [execResult] at htr ⊢
        obtain ⟨h2, rfl⟩ := append_singleton_eq s.2 tr1 tr2 g.call c htr hcnotin
        exact ⟨h2, by simp [hcap g (List.mem_cons_self g gs) ht]⟩
      · rw [if_neg ht] at htr ⊢
        by_cases hce : g.capture = true ∧ (if g.capture = true then resp g.call else s.1) ≠ Status.TG_OK
        · rw [if_pos hce] at htr ⊢
          simp only [execResult] at htr ⊢
          obtain ⟨h2, rfl⟩ := append_singleton_eq s.2 tr1 tr2 g.call c htr hcnotin
          rw [hmot g (List.mem_cons_self g gs)] at hm
          exact absurd hm (by simp [ht])
        · rw [if_neg hce] at htr ⊢
          refine ih _ (fun g' hg' => hmot g' (List.mem_cons_of_mem g hg'))
            (fun g' hg' => hcap g' (List.mem_cons_of_mem g hg')) ?_ c tr1 tr2 htr hm
          intro c' hc'
          simp only [List.mem_append, List.mem_singleton] at hc'
          rcases hc' with hc' | rfl
          · exact hinv c' hc'
          · rw [hmot g (List.mem_cons_self g gs)]
            simpa using ht
    · rw [if_neg hg] at htr ⊢
      exact ih s (fun g' hg' => hmot g' (List.mem_cons_of_mem g hg'))
        (fun g' hg' => hcap g' (List.mem_cons_of_mem g hg')) hinv c tr1 tr2 htr hm

theorem runGatesE_append (resp : CMCall → Status) :
    ∀ (gs1 gs2 : List Gate) (s : ExecSt),
    runGatesE resp (gs1 ++ gs2) s = (runGatesE resp gs1 s).bind (runGatesE resp gs2) := by
  intro gs1
  induction gs1 with
  | nil => intro gs2 s; rfl
  | cons g gs1 ih =>
    intro gs2 s
    simp only [List.cons_append, runGatesE]
    by_cases hg : g.guard = true
    · rw [if_pos hg, if_pos hg]
      by_cases ht : g.terminal = true
      · rw [if_pos ht, if_pos ht]
        rfl
      · rw [if_neg ht, if_neg ht]
        by_cases hce : g.capture = true ∧ (if g.capture = true then resp g.call else s.1) ≠ Status.TG_OK
        · rw [if_pos hce, if_pos hce]
          rfl
        · rw [if_neg hce, if_neg hce]
          exact ih gs2 _
    · rw [if_neg hg, if_neg hg]
      exact ih gs2 s

/-! ### Facts about the statement switch and the parse loop -/

theorem gc_next_statement_status (buf : List Char) (i : Nat) (st : Status) :
    (gc_next_statement buf i st).2 = st ∨
    (gc_next_statement buf i st).2 = Status.TG_EXPECTED_COMMAND_LETTER ∨
    (gc_next_statement buf i st).2 = Status.TG_BAD_NUMBER_FORMAT := by
  simp only [gc_next_statement]
  split
  · exact Or.inl rfl
  · split
    · exact Or.inr (Or.inl rfl)
    · split
      · exact Or.inr (Or.inr rfl)
      · exact Or.inl rfl

set_option maxHeartbeats 1600000 in
theorem applyStatementG_status (g : Int) (gn : GCodeModel) (gf : GCodeFlags) (st : Status) :
    (applyStatementG g gn gf st).2.2 = st ∨
    (applyStatementG g gn gf st).2.2 = Status.TG_UNSUPPORTED_STATEMENT := by
  unfold applyStatementG
  split <;> first | exact Or.inl rfl | exact Or.inr rfl

set_option maxHeartbeats 1600000 in
theorem applyStatementM_status (m : Int) (gn : GCodeModel) (gf : GCodeFlags) (st : Status) :
    (applyStatementM m gn gf st).2.2 = st ∨
    (applyStatementM m gn gf st).2.2 = Status.TG_UNSUPPORTED_STATEMENT := by
  unfold applyStatementM
  split <;> first | exact Or.inl rfl | exact Or.inr rfl

set_option maxHeartbeats 1600000 in
theorem applyStatement_status (L : Char) (v : DVal) (gn : GCodeModel) (gf : GCodeFlags)
    (st : Status) :
    (applyStatement L v gn gf st).2.2 = st ∨
    (applyStatement L v gn gf st).2.2 = Status.TG_UNSUPPORTED_STATEMENT := by
  unfold applyStatement
  cases v <;> split <;> first
    | exact applyStatementG_status _ gn gf st
    | exact applyStatementM_status _ gn gf st
    | exact Or.inl rfl
    | exact Or.inr rfl

set_option maxHeartbeats 1600000 in
theorem applyStatementG_no_offset (g : Int) (gn : GCodeModel) (gf : GCodeFlags) (st : Status)
    (h : gn.next_action ≠ NextAction.NEXT_ACTION_OFFSET_COORDINATES) :
    (applyStatementG g gn gf st).1.next_action ≠ NextAction.NEXT_ACTION_OFFSET_COORDINATES := by
  unfold applyStatementG
  split <;>
    simp_all [SET_motion, SET_next_action, SET_motion_mode, SET_set_plane, SET_inches_mode,
      SET_absolute_mode, SET_absolute_override, SET_set_origin_mode, SET_inverse_feed_rate_mode]

set_option maxHeartbeats 1600000 in
theorem applyStatementM_no_offset (m : Int) (gn : GCodeModel) (gf : GCodeFlags) (st : Status)
    (h : gn.next_action ≠ NextAction.NEXT_ACTION_OFFSET_COORDINATES) :
    (applyStatementM m gn gf st).1.next_action ≠ NextAction.NEXT_ACTION_OFFSET_COORDINATES := by
  unfold applyStatementM
  split <;>
    simp_all [SET_program_flow, SET_spindle_mode, SET_change_tool]

set_option maxHeartbeats 1600000 in
theorem applyStatement_no_offset (L : Char) (v : DVal) (gn : GCodeModel) (gf : GCodeFlags)
    (st : Status) (h : gn.next_action ≠ NextAction.NEXT_ACTION_OFFSET_COORDINATES) :
    (applyStatement L v gn gf st).1.next_action ≠ NextAction.NEXT_ACTION_OFFSET_COORDINATES := by
  unfold applyStatement
  cases v <;> split <;> first
    | exact applyStatementG_no_offset _ gn gf st h
    | exact applyStatementM_no_offset _ gn gf st h
    | exact h

theorem parseLoop_status (buf : List Char) :
    ∀ (fuel : Nat) (gn : GCodeModel) (gf : GCodeFlags) (i : Nat),
    (parseLoop buf fuel gn gf Status.TG_OK i).2.2 = Status.TG_OK ∨
    (parseLoop buf fuel gn gf Status.TG_OK i).2.2 = Status.TG_EXPECTED_COMMAND_LETTER ∨
    (parseLoop buf fuel gn gf Status.TG_OK i).2.2 = Status.TG_BAD_NUMBER_FORMAT ∨
    (parseLoop buf fuel gn gf Status.TG_OK i).2.2 = Status.TG_UNSUPPORTED_STATEMENT := by
  intro fuel
  induction fuel with
  | zero => intro gn gf i; exact Or.inl rfl
  | succ fuel ih =>
    intro gn gf i
    simp only [parseLoop]
    cases hstmt : gc_next_statement buf i Status.TG_OK with
    | mk o st' =>
      cases o with
      | none =>
        have := gc_next_statement_status buf i Status.TG_OK
        rw [hstmt] at this
        simp only at this
        tauto
      | some s =>
        have hst' : st' = Status.TG_OK :=
          (gc_next_statement_some buf i _ st' s.1 s.2.1 s.2.2.1 s.2.2.2 hstmt).2.2.2
        subst hst'
        simp only
        split
        · next hne =>
          have := applyStatement_status s.1 s.2.1 gn gf Status.TG_OK
          tauto
        · next hne =>
          have heq : (applyStatement s.1 s.2.1 gn gf Status.TG_OK).2.2 = Status.TG_OK := by
            by_contra hcon
            exact hne hcon
          rw [heq]
          exact ih _ _ _

theorem parseLoop_no_offset (buf : List Char) :
    ∀ (fuel : Nat) (gn : GCodeModel) (gf : GCodeFlags) (st : Status) (i : Nat),
    gn.next_action ≠ NextAction.NEXT_ACTION_OFFSET_COORDINATES →
    (parseLoop buf fuel gn gf st i).1.next_action ≠ NextAction.NEXT_ACTION_OFFSET_COORDINATES := by
  intro fuel
  induction fuel with
  | zero => intro gn gf st i h; exact h
  | succ fuel ih =>
    intro gn gf st i h
    simp only [parseLoop]
    cases hstmt : gc_next_statement buf i st with
    | mk o st' =>
      cases o with
      | none => exact h
      | some s =>
        simp only
        split
        · exact applyStatement_no_offset s.1 s.2.1 gn gf st' h
        · exact ih _ _ _ _ (applyStatement_no_offset s.1 s.2.1 gn gf st' h)

/-! ### Coherence facts about the dispatch gate list -/

theorem gatePrio_spindle (gn : GCodeModel) :
    gatePrio (if gn.spindle_mode = SpindleMode.SPINDLE_CW then CMCall.start_spindle_clockwise
      else if gn.spindle_mode = SpindleMode.SPINDLE_CCW then CMCall.start_spindle_counterclockwise
      else CMCall.stop_spindle_turning) = 6 := by
  split_ifs <;> rfl

theorem isSpindleCall_spindle (gn : GCodeModel) :
    isSpindleCall (if gn.spindle_mode = SpindleMode.SPINDLE_CW then CMCall.start_spindle_clockwise
      else if gn.spindle_mode = SpindleMode.SPINDLE_CCW then CMCall.start_spindle_counterclockwise
      else CMCall.stop_spindle_turning) = true := by
  split_ifs <;> rfl

theorem isMotionCall_spindle (gn : GCodeModel) :
    isMotionCall (if gn.spindle_mode = SpindleMode.SPINDLE_CW then CMCall.start_spindle_clockwise
      else if gn.spindle_mode = SpindleMode.SPINDLE_CCW then CMCall.start_spindle_counterclockwise
      else CMCall.stop_spindle_turning) = false := by
  split_ifs <;> rfl

theorem gates_capture_coh (gn : GCodeModel) (gf : GCodeFlags) :
    ∀ g ∈ gates gn gf, g.capture = !isSpindleCall g.call := by
  intro g hg
  simp only [gates, List.mem_cons, List.not_mem_nil, or_false] at hg
  rcases hg with rfl | rfl | rfl | rfl | rfl | rfl | rfl | rfl | rfl | rfl | rfl | rfl | rfl | rfl | rfl
    <;> (repeat' split) <;> rfl

theorem gates_motion_terminal (gn : GCodeModel) (gf : GCodeFlags) :
    ∀ g ∈ gates gn gf, isMotionCall g.call = g.terminal := by
  intro g hg
  simp only [gates, List.mem_cons, List.not_mem_nil, or_false] at hg
  rcases hg with rfl | rfl | rfl | rfl | rfl | rfl | rfl | rfl | rfl | rfl | rfl | rfl | rfl | rfl | rfl
    <;> (repeat' split) <;> rfl

theorem gates_terminal_capture (gn : GCodeModel) (gf : GCodeFlags) :
    ∀ g ∈ gates gn gf, g.terminal = true → g.capture = true := by
  intro g hg
  simp only [gates, List.mem_cons, List.not_mem_nil, or_false] at hg
  rcases hg with rfl | rfl | rfl | rfl | rfl | rfl | rfl | rfl | rfl | rfl | rfl | rfl | rfl | rfl | rfl
    <;> simp

theorem gates_chain (gn : GCodeModel) (gf : GCodeFlags) :
    (gates gn gf).Chain' (fun g1 g2 => gatePrio g1.call ≤ gatePrio g2.call) := by
  unfold gates
  simp only [List.chain'_cons, List.chain'_singleton, and_true]
  repeat' apply And.intro
  all_goals (repeat' split) <;> exact of_decide_eq_true rfl

theorem gates_pairwise (gn : GCodeModel) (gf : GCodeFlags) :
    (gates gn gf).Pairwise (fun g1 g2 => gatePrio g1.call ≤ gatePrio g2.call) := by
  have : IsTrans Gate (fun g1 g2 => gatePrio g1.call ≤ gatePrio g2.call) :=
    ⟨fun _ _ _ h1 h2 => le_trans h1 h2⟩
  exact List.chain'_iff_pairwise.mp (gates_chain gn gf)

/-! ### The alphabet of normalized commands -/

theorem char_toNat_inj {c d : Char} (h : c.toNat = d.toNat) : c = d :=
  Char.eq_of_val_eq (UInt32.ext h)

/-- A character the normalizer's copy loop lets through: fixed under
uppercasing and either alphanumeric or printable punctuation that is not
discarded and not the comment opener. -/
def keptChar (c : Char) : Prop :=
  c_toupper c = c ∧
  (c_isupper c = true ∨ c_isdigit c = true ∨
    (c ≠ '(' ∧ 32 < c.toNat ∧ c.toNat ≠ 127 ∧ c ∉ discardSet))

theorem keptChar_ne_nul {c : Char} (h : keptChar c) : c ≠ '\x00' := by
  intro hnul
  subst hnul
  rcases h.2 with h2 | h2 | h2 <;> revert h2 <;> decide

theorem normLoop_mem : ∀ (l : List Char) (c : Char), c ∈ (normLoop l).1 →
    keptChar c ∧ ∃ a ∈ l, c = c_toupper a := by
  intro l
  induction l with
  | nil => intro c hc; simp [normLoop] at hc
  | cons a rest ih =>
    intro c hc
    simp only [normLoop] at hc
    by_cases hnul : c_toupper a = '\x00'
    · rw [if_pos hnul] at hc
      simp at hc
    · rw [if_neg hnul] at hc
      by_cases hud : (c_isupper (c_toupper a) || c_isdigit (c_toupper a)) = true
      · rw [if_pos hud] at hc
        simp only [List.mem_cons] at hc
        rcases hc with rfl | hc
        · refine ⟨⟨c_toupper_idem a, ?_⟩, a, List.mem_cons_self a rest, rfl⟩
          rcases Bool.or_eq_true_iff.mp hud with h | h
          · exact Or.inl h
          · exact Or.inr (Or.inl h)
        · obtain ⟨hk, b, hb, rfl⟩ := ih c hc
          exact ⟨hk, b, List.mem_cons_of_mem a hb, rfl⟩
      · rw [if_neg hud] at hc
        by_cases hpar : c_toupper a = '('
        · rw [if_pos hpar] at hc
          simp at hc
        · rw [if_neg hpar] at hc
          by_cases hsp : (c_toupper a).toNat ≤ 32
          · rw [if_pos hsp] at hc
            obtain ⟨hk, b, hb, rfl⟩ := ih c hc
            exact ⟨hk, b, List.mem_cons_of_mem a hb, rfl⟩
          · rw [if_neg hsp] at hc
            by_cases hdel : (c_toupper a).toNat = 127
            · rw [if_pos hdel] at hc
              obtain ⟨hk, b, hb, rfl⟩ := ih c hc
              exact ⟨hk, b, List.mem_cons_of_mem a hb, rfl⟩
            · rw [if_neg hdel] at hc
              by_cases hdis : c_toupper a ∈ discardSet
              · rw [if_pos hdis] at hc
                obtain ⟨hk, b, hb, rfl⟩ := ih c hc
                exact ⟨hk, b, List.mem_cons_of_mem a hb, rfl⟩
              · rw [if_neg hdis] at hc
                simp only [List.mem_cons] at hc
                rcases hc with rfl | hc
                · refine ⟨⟨c_toupper_idem a, Or.inr (Or.inr ⟨hpar, by omega, hdel, hdis⟩)⟩,
                    a, List.mem_cons_self a rest, rfl⟩
                · obtain ⟨hk, b, hb, rfl⟩ := ih c hc
                  exact ⟨hk, b, List.mem_cons_of_mem a hb, rfl⟩

theorem normLoop_kept : ∀ (l : List Char), (∀ c ∈ l, keptChar c) → normLoop l = (l, none) := by
  intro l
  induction l with
  | nil => intro _; rfl
  | cons a rest ih =>
    intro hall
    have ha := hall a (List.mem_cons_self a rest)
    have hrest := ih fun c hc => hall c (List.mem_cons_of_mem a hc)
    simp only [normLoop, ha.1]
    rw [if_neg (keptChar_ne_nul ha)]
    rcases ha.2 with h | h | h
    · rw [if_pos (by rw [h]; rfl), hrest]
    · rw [if_pos (by rw [h, Bool.or_true]), hrest]
    · cases hud : (c_isupper a || c_isdigit a) with
      | true => rw [if_pos rfl, hrest]
      | false =>
        rw [if_neg (by decide)]
        rw [if_neg h.1]
        rw [if_neg (by omega)]
        rw [if_neg h.2.2.1]
        rw [if_neg h.2.2.2, hrest]

theorem gc_normalize_idem (block : List Char)
    (h : (gc_normalize_gcode_block block).1.head? ≠ some '/') :
    gc_normalize_gcode_block ((gc_normalize_gcode_block block).1) =
      ((gc_normalize_gcode_block block).1, none) := by
  by_cases hd : block.head? = some '/'
  · have hcmd : (gc_normalize_gcode_block block).1 = [] := by
      simp [gc_normalize_gcode_block, hd]
    rw [hcmd]
    decide
  · have hcmd : (gc_normalize_gcode_block block).1 = (normLoop block).1 := by
      simp [gc_normalize_gcode_block, hd]
    rw [hcmd] at h ⊢
    have hkept : ∀ c ∈ (normLoop block).1, keptChar c :=
      fun c hc => (normLoop_mem block c hc).1
    unfold gc_normalize_gcode_block
    rw [if_neg h, normLoop_kept _ hkept]
    simp

theorem ascii_c_toupper {c : Char} (h : c.toNat ≤ 127) : (c_toupper c).toNat ≤ 127 := by
  rw [c_toupper_toNat]
  split <;> omega

/-- The characters that can actually appear in a normalized command built
from ASCII input: uppercase letters, digits, and the printable punctuation
that survives the normalizer's filters. -/
def allowedChars : List Char :=
  ['A', 'B', 'C', 'D', 'E', 'F', 'G', 'H', 'I', 'J', 'K', 'L', 'M', 'N', 'O', 'P',
   'Q', 'R', 'S', 'T', 'U', 'V', 'W', 'X', 'Y', 'Z',
   '0', '1', '2', '3', '4', '5', '6', '7', '8', '9',
   '#', '&', ')', '*', '+', '-', '.', '/', '<', '=', '>', '[', '\x5c', ']', '\x7b', '|', '\x7d']

theorem keptChar_not_lower {c : Char} (h : keptChar c) : c_islower c = false := by
  cases hl : c_islower c with
  | false => rfl
  | true =>
    have ht := c_toupper_toNat c
    rw [if_pos hl, h.1] at ht
    unfold c_islower at hl
    simp only [Bool.and_eq_true, decide_eq_true_eq] at hl
    omega

theorem kept_ascii_allowed : ∀ n : Nat, n < 128 →
    ((65 ≤ n ∧ n ≤ 90) ∨ (48 ≤ n ∧ n ≤ 57) ∨
      ((97 ≤ n ∧ n ≤ 122 → False) ∧ n ≠ 40 ∧ 32 < n ∧ n ≠ 127 ∧
        n ∉ discardSet.map Char.toNat)) →
    n ∈ allowedChars.map Char.toNat := by
  decide

theorem normalize_ascii_alphabet (block : List Char) (hascii : ∀ c ∈ block, c.toNat ≤ 127) :
    ∀ c ∈ (gc_normalize_gcode_block block).1, c ∈ allowedChars := by
  intro c hc
  by_cases hd : block.head? = some '/'
  · simp [gc_normalize_gcode_block, hd] at hc
  · have hcmd : (gc_normalize_gcode_block block).1 = (normLoop block).1 := by
      simp [gc_normalize_gcode_block, hd]
    rw [hcmd] at hc
    obtain ⟨hk, a, ha, rfl⟩ := normLoop_mem block c hc
    have hac : (c_toupper a).toNat ≤ 127 := ascii_c_toupper (hascii a ha)
    have hnl : c_islower (c_toupper a) = false := keptChar_not_lower hk
    have hnl' : ¬(97 ≤ (c_toupper a).toNat ∧ (c_toupper a).toNat ≤ 122) := by
      unfold c_islower at hnl
      simp only [Bool.and_eq_false_iff, decide_eq_false_iff_not] at hnl
      omega
    have hn : (c_toupper a).toNat ∈ allowedChars.map Char.toNat := by
      apply kept_ascii_allowed _ (by omega)
      rcases hk.2 with h | h | h
      · unfold c_isupper at h
        simp only [Bool.and_eq_true, decide_eq_true_eq] at h
        exact Or.inl h
      · unfold c_isdigit at h
        simp only [Bool.and_eq_true, decide_eq_true_eq] at h
        exact Or.inr (Or.inl h)
      · refine Or.inr (Or.inr ⟨fun hlr => hnl' hlr, ?_, h.2.1, h.2.2.1, ?_⟩)
        · intro h40
          exact h.1 (char_toNat_inj h40)
        · intro hmem
          simp only [List.mem_map] at hmem
          obtain ⟨d, hd2, hdt⟩ := hmem
          exact h.2.2.2 (char_toNat_inj hdt.symm ▸ hd2)
    simp only [List.mem_map] at hn
    obtain ⟨d, hd2, hdt⟩ := hn
    exact char_toNat_inj hdt ▸ hd2

/-! ### The parse-and-execute status never invents the quit code -/

theorem gc_parse_not_quit (resp : CMCall → Status) (pms : PersistentMachine) (buf : List Char)
    (hresp : ∀ c, resp c ≠ Status.TG_QUIT) :
    (gc_parse_gcode_block resp pms buf).1 ≠ Status.TG_QUIT := by
  unfold gc_parse_gcode_block gc_execute_gcode_block
  rcases runGatesE_status_src resp
      (gates (parseLoop buf (buf.length + 1)
        { next_action := pms.next_action, motion_mode := pms.motion_mode,
          target_X := pms.pos_X, target_Y := pms.pos_Y, target_Z := pms.pos_Z }
        {} Status.TG_OK 0).1
       (parseLoop buf (buf.length + 1)
        { next_action := pms.next_action, motion_mode := pms.motion_mode,
          target_X := pms.pos_X, target_Y := pms.pos_Y, target_Z := pms.pos_Z }
        {} Status.TG_OK 0).2.1)
      ((parseLoop buf (buf.length + 1)
        { next_action := pms.next_action, motion_mode := pms.motion_mode,
          target_X := pms.pos_X, target_Y := pms.pos_Y, target_Z := pms.pos_Z }
        {} Status.TG_OK 0).2.2, []) with h | h
  · intro hq
    rw [hq] at h
    rcases parseLoop_status buf (buf.length + 1)
        { next_action := pms.next_action, motion_mode := pms.motion_mode,
          target_X := pms.pos_X, target_Y := pms.pos_Y, target_Z := pms.pos_Z } {} 0 with
      h4 | h4 | h4 | h4 <;> rw [h4] at h <;> exact Status.noConfusion h
  · obtain ⟨c, hc⟩ := h
    rw [hc]
    exact hresp c

/-! ### The dispatcher never issues an axis-offset call unless next-action
says so -/

theorem execute_no_offset (resp : CMCall → Status) (gn : GCodeModel) (gf : GCodeFlags)
    (st0 : Status) (h : gn.next_action ≠ NextAction.NEXT_ACTION_OFFSET_COORDINATES)
    (x y z : DVal) :
    CMCall.set_origin_offsets x y z ∉ (gc_execute_gcode_block resp gn gf st0).2 := by
  intro hmem
  rcases runGatesE_mem_calls resp (gates gn gf) (st0, []) _ hmem with hc | ⟨g, hg, hgu, hcall⟩
  · simp at hc
  · simp only [gates, List.mem_cons, List.not_mem_nil, or_false] at hg
    rcases hg with rfl | rfl | rfl | rfl | rfl | rfl | rfl | rfl | rfl | rfl | rfl | rfl | rfl | rfl | rfl
    · exact CMCall.noConfusion hcall
    · exact CMCall.noConfusion hcall
    · exact CMCall.noConfusion hcall
    · exact CMCall.noConfusion hcall
    · exact CMCall.noConfusion hcall
    · revert hcall
      (repeat' split) <;> exact fun hcall => CMCall.noConfusion hcall
    · exact CMCall.noConfusion hcall
    · exact CMCall.noConfusion hcall
    · exact CMCall.noConfusion hcall
    · exact CMCall.noConfusion hcall
    · exact CMCall.noConfusion hcall
    · simp only [decide_eq_true_eq] at hgu
      exact h hgu
    · exact CMCall.noConfusion hcall
    · exact CMCall.noConfusion hcall
    · exact CMCall.noConfusion hcall

/-! ### Splitting the gate list at the motion steps -/

/-- The dispatch steps before the three motion blocks (steps 1-12). -/
def gatesNonMotion (gn : GCodeModel) (gf : GCodeFlags) : List Gate :=
  (gates gn gf).take 12

/-- The three motion blocks (step 13). -/
def gatesMotion (gn : GCodeModel) (gf : GCodeFlags) : List Gate :=
  (gates gn gf).drop 12

theorem gates_split (gn : GCodeModel) (gf : GCodeFlags) :
    gates gn gf = gatesNonMotion gn gf ++ gatesMotion gn gf :=
  (List.take_append_drop 12 (gates gn gf)).symm

theorem gatesNonMotion_no_motion (gn : GCodeModel) (gf : GCodeFlags) :
    ∀ g ∈ gatesNonMotion gn gf, isMotionCall g.call = false := by
  intro g hg
  simp only [gatesNonMotion, gates, List.take, List.mem_cons, List.not_mem_nil, or_false] at hg
  rcases hg with rfl | rfl | rfl | rfl | rfl | rfl | rfl | rfl | rfl | rfl | rfl | rfl
    <;> (repeat' split) <;> rfl

/-! ### Concrete machines and states used by the claim instances -/

/-- A persistent state whose carried-over next-action is a pending straight
traverse, as it is after any block that ran G0. -/
def pmsTraverse : PersistentMachine :=
  ⟨.NEXT_ACTION_MOTION, .MOTION_MODE_STRAIGHT_TRAVERSE, 0, 0, 0⟩

/-- A canonical machine that rejects the spindle start-clockwise call and
accepts everything else. -/
def spindleErrResp : CMCall → Status := fun c =>
  if c = CMCall.start_spindle_clockwise then Status.TG_ERROR 1 else Status.TG_OK

/-- A canonical machine that rejects the feed-rate-100 setter and accepts
everything else. -/
def feedErrResp : CMCall → Status := fun c =>
  if c = CMCall.set_feed_rate 100 then Status.TG_ERROR 7 else Status.TG_OK

/-- The character set the spec's normalizer contract claims for normalized
commands, written from the spec's words (uppercase letters, digits, and the
punctuation `+ - . / * < = > | % # ( ) [ ] braces`), for comparison with the
code-derived alphabet `allowedChars`. -/
def specAllowedChars : List Char :=
  ['A', 'B', 'C', 'D', 'E', 'F', 'G', 'H', 'I', 'J', 'K', 'L', 'M', 'N', 'O', 'P',
   'Q', 'R', 'S', 'T', 'U', 'V', 'W', 'X', 'Y', 'Z',
   '0', '1', '2', '3', '4', '5', '6', '7', '8', '9',
   '+', '-', '.', '/', '*', '<', '=', '>', '|', '%', '#', '(', ')', '[', ']', '\x7b', '\x7d']

/-! ### Claim C2 -/

/-- C2: the Execution Dispatcher's tool-change call is gated on the T-word
flag, not on the change-tool flag set by M6 (gcode.c line 393 reads
`CALL_CM_FUNC(cm_change_tool, tool)`): a block `T7` with no M6 issues
`cm_change_tool(7)`, and a block `M6` with no T word issues no tool-change
call at all, contradicting both the claim and the code's own step list
("6. change tool (M6)"). -/
theorem C2_code_behavior :
    (gc_gcode_entry okResp pmsNone ("T7" : String).toList).2.1 =
      [CMCall.select_tool 7, CMCall.change_tool 7] ∧
    (gc_gcode_entry okResp pmsNone ("M6" : String).toList).2.1 = [] := by
  decide

/-! ### Claim C3 -/

/-- C3 counterexample: the normalized command `Q10` does not consist solely
of the letter `Q`, yet the entry point returns the quit status without
parsing it as a block (gcode.c line 101 tests only `block[0] == 'Q'`). -/
theorem C3_counterexample :
    gc_gcode_entry okResp pmsNone ("Q10" : String).toList =
      (Status.TG_QUIT, [], none) := by
  decide

/-- C3 (amended): provided the canonical machine never returns the quit
code itself, the entry point returns the quit status if and only if the
normalized command is non-empty and begins with the letter `Q`; in that case
nothing is parsed or dispatched (the call trace is empty). -/
theorem C3_amended (resp : CMCall → Status) (pms : PersistentMachine) (block : List Char)
    (hresp : ∀ c, resp c ≠ Status.TG_QUIT) :
    ((gc_gcode_entry resp pms block).1 = Status.TG_QUIT ↔
      (gc_normalize_gcode_block block).1.head? = some 'Q') ∧
    ((gc_normalize_gcode_block block).1.head? = some 'Q' →
      (gc_gcode_entry resp pms block).2.1 = []) := by
  simp only [gc_gcode_entry]
  by_cases he : (gc_normalize_gcode_block block).1.isEmpty
  · rw [if_pos he]
    have : (gc_normalize_gcode_block block).1 = [] := List.isEmpty_iff.mp he
    rw [this]
    simp
  · rw [if_neg he]
    by_cases hq : (gc_normalize_gcode_block block).1.head? = some 'Q'
    · rw [if_pos hq]
      simp [hq]
    · rw [if_neg hq]
      have hnq := gc_parse_not_quit resp pms (gc_normalize_gcode_block block).1 hresp
      simp only [hq, iff_false]
      exact ⟨hnq, fun hc => hc.elim⟩

/-- C3 witness: the amended claim instantiated at the always-OK machine and
the input `Q10`. -/
theorem C3_witness :
    ((gc_gcode_entry okResp pmsNone ("Q10" : String).toList).1 = Status.TG_QUIT ↔
      (gc_normalize_gcode_block ("Q10" : String).toList).1.head? = some 'Q') ∧
    ((gc_normalize_gcode_block ("Q10" : String).toList).1.head? = some 'Q' →
      (gc_gcode_entry okResp pmsNone ("Q10" : String).toList).2.1 = []) :=
  C3_amended okResp pmsNone _ (fun c => by simp [okResp])

/-! ### Claim C5 -/

/-- C5 counterexample: the input consisting of a space then a slash
normalizes to the single-character command `/`, but normalizing `/` again
hits the block-delete rule and yields the empty command, so normalization is
not idempotent on all of its outputs. -/
theorem C5_counterexample :
    (gc_normalize_gcode_block [' ', '/']).1 = ['/'] ∧
    gc_normalize_gcode_block ['/'] = ([], none) := by
  decide

/-- C5 (amended): normalization is idempotent on every output that does not
begin with the block-delete character `/`: running the Line Normalizer on
such an already-normalized command returns it unchanged (and emits no
message). -/
theorem C5_amended (block : List Char)
    (h : (gc_normalize_gcode_block block).1.head? ≠ some '/') :
    gc_normalize_gcode_block ((gc_normalize_gcode_block block).1) =
      ((gc_normalize_gcode_block block).1, none) :=
  gc_normalize_idem block h

/-- C5 witness: the amended claim instantiated at the input `g1 x5`. -/
theorem C5_witness :
    (gc_normalize_gcode_block ("g1 x5" : String).toList).1.head? ≠ some '/' ∧
    gc_normalize_gcode_block ((gc_normalize_gcode_block ("g1 x5" : String).toList).1) =
      ((gc_normalize_gcode_block ("g1 x5" : String).toList).1, none) :=
  ⟨by decide, C5_amended _ (by decide)⟩

/-! ### Claim C6 -/

/-- C6 counterexample: the input `&` normalizes to the command `&`, and the
ampersand is not in the claim's character set (uppercase letters, digits and
`+ - . / * < = > | % # ( ) [ ] braces`); the code's `strchr` discard list
does not contain `&`, so the normalizer copies it through. -/
theorem C6_counterexample :
    (gc_normalize_gcode_block ['&']).1 = ['&'] ∧ '&' ∉ specAllowedChars := by
  decide

/-- C6 (amended): for every ASCII input line, each character of the
normalized command is an uppercase letter, a digit, or one of the
punctuation characters `# & ) * + - . / < = > [ backslash ] brace bar
brace` — the code keeps `&` and the backslash, discards `%`, and never emits
`(` (a parenthesis starts the comment). -/
theorem C6_amended (block : List Char) (hascii : ∀ c ∈ block, c.toNat ≤ 127) :
    ∀ c ∈ (gc_normalize_gcode_block block).1, c ∈ allowedChars :=
  normalize_ascii_alphabet block hascii

/-- C6 witness: the amended claim instantiated at the input `g1 &`. -/
theorem C6_witness :
    (∀ c ∈ ("g1 &" : String).toList, c.toNat ≤ 127) ∧
    ∀ c ∈ (gc_normalize_gcode_block ("g1 &" : String).toList).1, c ∈ allowedChars :=
  ⟨by decide, C6_amended _ (by decide)⟩

/-! ### Claim C4 -/

/-- C4 counterexample: for the input `(MSG hello)` the emitted message is
` hello` — the space after the MSG letters is preserved — not `hello` as the
claim's scenario states (the source's own todo at gcode.c line 143 records
that spaces around the MSG specifier are not yet handled). -/
theorem C4_counterexample :
    (gc_gcode_entry okResp pmsNone ("(MSG hello)" : String).toList).2.2 =
      some ((" hello" : String).toList) ∧
    some ((" hello" : String).toList) ≠ some (("hello" : String).toList) := by
  decide

/-- C4 (amended): for every comment whose first three letters spell `MSG`
case-insensitively, exactly one message is emitted and it equals the comment
text after those three letters — everything up to the first closing
parenthesis kept, that parenthesis stripped, trailing content past an
unmatched comment preserved, and leading whitespace NOT stripped; in
particular `(MSG hello)` emits ` hello` with an empty normalized command,
status OK and no canonical-machine call. -/
theorem C4_amended :
    (∀ com : List Char,
      msgCheck (com.takeWhile (· ≠ '\x00')) = true →
      gc_normalize_gcode_block ('(' :: com) =
        ([], some (((com.takeWhile (· ≠ '\x00')).takeWhile (· ≠ ')')).drop 3))) ∧
    ∀ (resp : CMCall → Status) (pms : PersistentMachine),
      gc_gcode_entry resp pms (("(MSG hello)" : String).toList) =
        (Status.TG_OK, [], some ((" hello" : String).toList)) := by
  constructor
  · intro com h3
    have hn : normLoop ('(' :: com) = ([], some com) := rfl
    simp [gc_normalize_gcode_block, hn]
    simpa using h3
  · intro resp pms
    have hl : ("(MSG hello)" : String).toList =
        ['(', 'M', 'S', 'G', ' ', 'h', 'e', 'l', 'l', 'o', ')'] := rfl
    rw [hl]
    have hn : gc_normalize_gcode_block ['(', 'M', 'S', 'G', ' ', 'h', 'e', 'l', 'l', 'o', ')'] =
        ([], some [' ', 'h', 'e', 'l', 'l', 'o']) := by decide
    simp [gc_gcode_entry, hn]

/-- C4 witness: the amended claim's comment clause instantiated at the
comment `MSG hi)`. -/
theorem C4_witness :
    msgCheck ((("MSG hi)" : String).toList).takeWhile (· ≠ '\x00')) = true ∧
    gc_normalize_gcode_block ('(' :: ("MSG hi)" : String).toList) =
      ([], some ((((("MSG hi)" : String).toList).takeWhile (· ≠ '\x00')).takeWhile
        (· ≠ ')')).drop 3)) :=
  ⟨by decide, C4_amended.1 _ (by decide)⟩

/-! ### Claim C1 -/

/-- C1 counterexample: for the input `G500`, parsed while the persistent
machine state carries a pending straight-traverse motion, the entry point
dispatches a `cm_straight_traverse` call (the parse error does not stop
`_gc_parse_gcode_block` from calling `_gc_execute_gcode_block()` at line
339) and even returns OK — the successful motion call overwrites the
unsupported-statement status.  So a canonical-machine call IS made and the
error is NOT returned, contrary to the claim. -/
theorem C1_counterexample :
    gc_gcode_entry okResp pmsTraverse ("G500" : String).toList =
      (Status.TG_OK, [CMCall.straight_traverse 0 0 0], none) := by
  decide

/-- C1 (amended): a parse error stops parsing at the offending statement but
the accumulated flags are NOT discarded — the dispatcher still runs on them
and on the pre-seeded persistent state.  For the input `G500` specifically,
when the persistent next-action is none, no flag is set before the error, no
canonical-machine call is made, and the unsupported-statement error is
returned. -/
theorem C1_amended (resp : CMCall → Status) (pms : PersistentMachine)
    (h : pms.next_action = NextAction.NEXT_ACTION_NONE) :
    gc_gcode_entry resp pms (("G500" : String).toList) =
      (Status.TG_UNSUPPORTED_STATEMENT, [], none) := by
  have hlist : ("G500" : String).toList = ['G', '5', '0', '0'] := rfl
  rw [hlist]
  have hn : gc_normalize_gcode_block ['G', '5', '0', '0'] =
      (['G', '5', '0', '0'], none) := by decide
  simp only [gc_gcode_entry, hn]
  rw [if_neg (by decide), if_neg (by decide)]
  unfold gc_parse_gcode_block
  have hs1 : gc_next_statement ['G', '5', '0', '0'] 0 Status.TG_OK =
      (some ('G', 500, 0, 4), Status.TG_OK) := by decide
  have happly : ∀ (gn : GCodeModel) (gf : GCodeFlags),
      applyStatement 'G' 500 gn gf Status.TG_OK =
        (gn, gf, Status.TG_UNSUPPORTED_STATEMENT) := fun gn gf => rfl
  have hloop : ∀ gn : GCodeModel,
      parseLoop ['G', '5', '0', '0'] (['G', '5', '0', '0'].length + 1) gn {} Status.TG_OK 0 =
        (gn, {}, Status.TG_UNSUPPORTED_STATEMENT) := by
    intro gn
    simp only [List.length_cons, List.length_nil]
    simp only [parseLoop, hs1, happly]
    rw [if_pos (by decide)]
  simp only [hloop]
  simp [gc_execute_gcode_block, gates, runGatesE, execResult, h]

/-- C1 witness: the amended claim instantiated at the always-OK machine and
the idle persistent state. -/
theorem C1_witness :
    pmsNone.next_action = NextAction.NEXT_ACTION_NONE ∧
    gc_gcode_entry okResp pmsNone (("G500" : String).toList) =
      (Status.TG_UNSUPPORTED_STATEMENT, [], none) :=
  ⟨by decide, C1_amended okResp pmsNone (by decide)⟩

/-! ### Claim C7 -/

/-- C7 counterexample: for the block `M3 G4 P1` run against a canonical
machine whose spindle start-clockwise call fails, the failing spindle call
neither aborts dispatch (the dwell still runs) nor is its status returned
(the entry point reports OK): lines 396-404 call the spindle functions
without capturing their return status. -/
theorem C7_counterexample :
    gc_gcode_entry spindleErrResp pmsNone ("M3G4P1" : String).toList =
      (Status.TG_OK, [CMCall.start_spindle_clockwise, CMCall.dwell 1], none) := by
  decide

/-- C7 (amended): every status-captured canonical-machine call — the
`CALL_CM_FUNC` setters and the dwell, plane, units, distance, home, offset
and motion steps, i.e. every call except the three spindle-direction calls —
aborts the remaining dispatch sequence when it returns non-OK, and that
status is returned; calls already issued before it stay issued (the trace up
to it is unchanged — there is no rollback).  The spindle calls' statuses are
ignored (see the counterexample). -/
theorem C7_amended (resp : CMCall → Status) (gn : GCodeModel) (gf : GCodeFlags) (st0 : Status)
    (c : CMCall) (tr1 tr2 : List CMCall)
    (htr : (gc_execute_gcode_block resp gn gf st0).2 = tr1 ++ c :: tr2)
    (hsp : isSpindleCall c = false) (hbad : resp c ≠ Status.TG_OK) :
    tr2 = [] ∧ (gc_execute_gcode_block resp gn gf st0).1 = resp c := by
  unfold gc_execute_gcode_block at htr ⊢
  exact runGatesE_abort resp (gates gn gf) (st0, []) (gates_capture_coh gn gf)
    (fun c' hc' _ => absurd hc' (List.not_mem_nil c')) c tr1 tr2 htr hsp hbad

/-- The block state left by a parse that flagged inverse-feed-rate mode and
a feed rate of 100. -/
def gnC7 : GCodeModel := { feed_rate := 100 }

/-- The flags matching `gnC7`. -/
def gfC7 : GCodeFlags := { inverse_feed_rate_mode := true, feed_rate := true }

/-- C7 witness: the amended claim at a machine that rejects the feed-rate
call: the inverse-feed-rate call before it stays issued, dispatch stops at
the feed-rate call, and its error status is returned. -/
theorem C7_witness :
    (gc_execute_gcode_block feedErrResp gnC7 gfC7 Status.TG_OK).2 =
      [CMCall.set_inverse_feed_rate_mode false] ++ CMCall.set_feed_rate 100 :: [] ∧
    isSpindleCall (CMCall.set_feed_rate 100) = false ∧
    feedErrResp (CMCall.set_feed_rate 100) ≠ Status.TG_OK ∧
    ([] : List CMCall) = [] ∧
    (gc_execute_gcode_block feedErrResp gnC7 gfC7 Status.TG_OK).1 =
      feedErrResp (CMCall.set_feed_rate 100) := by
  have h := C7_amended feedErrResp gnC7 gfC7 Status.TG_OK (CMCall.set_feed_rate 100)
    [CMCall.set_inverse_feed_rate_mode false] [] (by decide) (by decide) (by decide)
  exact ⟨by decide, by decide, by decide, h.1, h.2⟩

/-! ### Claim C8 -/

/-- C8: for every block state, the dispatch trace follows the fixed priority
order of steps 1-13 regardless of how the block was written (the trace is
sorted by step priority); any motion call is terminal — it is the last call
of the trace and its status is the returned status; and whenever a motion
call occurs, every guarded non-motion step's call is in the trace (with the
sortedness this places it before the motion call). -/
theorem C8_confirmed (resp : CMCall → Status) (gn : GCodeModel) (gf : GCodeFlags) (st0 : Status) :
    ((gc_execute_gcode_block resp gn gf st0).2.Pairwise (fun a b => gatePrio a ≤ gatePrio b)) ∧
    (∀ (c : CMCall) (tr1 tr2 : List CMCall),
      (gc_execute_gcode_block resp gn gf st0).2 = tr1 ++ c :: tr2 → isMotionCall c = true →
      tr2 = [] ∧ (gc_execute_gcode_block resp gn gf st0).1 = resp c) ∧
    ((∃ m ∈ (gc_execute_gcode_block resp gn gf st0).2, isMotionCall m = true) →
      ∀ g ∈ gatesNonMotion gn gf, g.guard = true →
        g.call ∈ (gc_execute_gcode_block resp gn gf st0).2) := by
  refine ⟨?_, ?_, ?_⟩
  · exact runGatesE_sorted resp (gates gn gf) (st0, []) List.Pairwise.nil
      (fun c hc => absurd hc (List.not_mem_nil c)) (gates_pairwise gn gf)
  · intro c tr1 tr2 htr hm
    exact runGatesE_motion_last resp (gates gn gf) (st0, [])
      (gates_motion_terminal gn gf) (gates_terminal_capture gn gf)
      (fun c' hc' => absurd hc' (List.not_mem_nil c')) c tr1 tr2 htr hm
  · rintro ⟨m, hm, hmot⟩ g hg hgu
    unfold gc_execute_gcode_block at hm ⊢
    rw [gates_split, runGatesE_append] at hm ⊢
    cases hrun : runGatesE resp (gatesNonMotion gn gf) (st0, []) with
    | error r =>
      rw [hrun] at hm
      have hm' : m ∈ (execResult (runGatesE resp (gatesNonMotion gn gf) (st0, []))).2 := by
        rw [hrun]
        exact hm
      rcases runGatesE_mem_calls resp _ _ m hm' with hc | ⟨g', hg', _, rfl⟩
      · exact absurd hc (List.not_mem_nil m)
      · rw [gatesNonMotion_no_motion gn gf g' hg'] at hmot
        exact absurd hmot (by simp)
    | ok r =>
      have hmem := runGatesE_ok_guard_mem resp (gatesNonMotion gn gf) (st0, []) r hrun g hg hgu
      obtain ⟨ext, hext⟩ := runGatesE_trace_extend resp (gatesMotion gn gf) r
      have hb : (Except.ok r : Except ExecSt ExecSt).bind (runGatesE resp (gatesMotion gn gf)) =
          runGatesE resp (gatesMotion gn gf) r := rfl
      rw [hb, hext]
      exact List.mem_append_left _ hmem

/-- The block state left by parsing `F100 G0 X10` against an idle persistent
state at the origin. -/
def gnC8 : GCodeModel :=
  { next_action := .NEXT_ACTION_MOTION, motion_mode := .MOTION_MODE_STRAIGHT_TRAVERSE,
    target_X := 10, feed_rate := 100 }

/-- The flags matching `gnC8`. -/
def gfC8 : GCodeFlags :=
  { next_action := true, motion_mode := true, target_X := true, feed_rate := true }

/-- C8 witness: on the `F100 G0 X10` block state, the feed-rate call is
committed before the traverse motion executes, the motion call is last, and
its status is the one returned. -/
theorem C8_witness :
    (gc_execute_gcode_block okResp gnC8 gfC8 Status.TG_OK).2 =
      [CMCall.set_feed_rate 100] ++ CMCall.straight_traverse 10 0 0 :: [] ∧
    ([] : List CMCall) = [] ∧
    (gc_execute_gcode_block okResp gnC8 gfC8 Status.TG_OK).1 =
      okResp (CMCall.straight_traverse 10 0 0) := by
  have h := (C8_confirmed okResp gnC8 gfC8 Status.TG_OK).2.1 (CMCall.straight_traverse 10 0 0)
    [CMCall.set_feed_rate 100] [] (by decide) (by decide)
  exact ⟨by decide, h.1, h.2⟩

/-! ### Claim C10 -/

/-- C10: a G92 statement only sets the origin-offset-mode value and flag
(it is exactly the `SET_NEXT_STATE(set_origin_mode, TRUE)` update and leaves
next-action alone), while the dispatcher's set-origin-offsets call fires
only when next-action is OFFSET_COORDINATES — a value no statement ever
assigns; hence for every block parsed while the persistent next-action is
not OFFSET_COORDINATES, no set-origin-offsets call is ever issued. -/
theorem C10_confirmed (resp : CMCall → Status) (pms : PersistentMachine) (buf : List Char)
    (h : pms.next_action ≠ NextAction.NEXT_ACTION_OFFSET_COORDINATES) :
    (∀ (gn : GCodeModel) (gf : GCodeFlags) (st : Status),
      applyStatement 'G' 92 gn gf st = SET_set_origin_mode true gn gf st) ∧
    ∀ x y z : DVal, CMCall.set_origin_offsets x y z ∉ (gc_gcode_entry resp pms buf).2.1 := by
  constructor
  · intro gn gf st
    rfl
  · intro x y z
    simp only [gc_gcode_entry]
    by_cases he : (gc_normalize_gcode_block buf).1.isEmpty
    · rw [if_pos he]
      simp
    · rw [if_neg he]
      by_cases hq : (gc_normalize_gcode_block buf).1.head? = some 'Q'
      · rw [if_pos hq]
        simp
      · rw [if_neg hq]
        exact execute_no_offset resp _ _ _
          (parseLoop_no_offset (gc_normalize_gcode_block buf).1 _ _ _ _ _ h) x y z

/-- C10 witness: a `G92 X1` block parsed from the idle persistent state
never triggers the set-origin-offsets call. -/
theorem C10_witness :
    pmsNone.next_action ≠ NextAction.NEXT_ACTION_OFFSET_COORDINATES ∧
    CMCall.set_origin_offsets 1 2 3 ∉
      (gc_gcode_entry okResp pmsNone (("G92X1" : String).toList)).2.1 :=
  ⟨by decide, (C10_confirmed okResp pmsNone _ (by decide)).2 1 2 3⟩

/-! ### Claim C9 -/

/-- C9 counterexample: on the normalized line `XINF` the cursor stands at
the uppercase letter `X` and not one of the following characters is a
numeric character, yet the tokenizer does not return the claimed
bad-number-format error: `strtod` converts the case-insensitive `INF` form
(avr-libc, this AVR firmware's libc, accepts `INF`/`INFINITY`/`NAN`), so
the call returns the statement (`X`, `+inf`, fraction NaN) with the cursor
advanced past `INF` — and `+inf` is not a signed-decimal value. -/
theorem C9_counterexample :
    c_isupper 'X' = true ∧
    (∀ c ∈ ['I', 'N', 'F'], c_isdigit c = false) ∧
    gc_next_statement ['X', 'I', 'N', 'F'] 0 Status.TG_OK =
      (some ('X', DVal.pinf, DVal.nan, 4), Status.TG_OK) := by
  decide

set_option linter.unusedVariables false in
/-- C9 (amended): one tokenizer call behaves as exactly one of the four
contracted cases: clean end-of-string (status unchanged),
expected-command-letter error at a non-uppercase character,
bad-number-format error when `strtod` (the avr-libc conversion: decimal
forms and the case-insensitive `INF`/`INFINITY`/`NAN` forms) converts
nothing after the letter, or success returning the letter, the value read
by `strtod` (an infinity or NaN for its non-finite forms, as in `XINF`),
the fraction `value - trunc value`, and the cursor moved to the first
character after the converted text; on success the cursor strictly advances
past the letter (so repeated calls yield the statements left-to-right
exactly once) and stays within the line.  The hypotheses restrict to
NUL-free lines that fit the firmware's 8-bit cursor. -/
theorem C9_amended (buf : List Char) (i : Nat) (st : Status)
    (hnul : '\x00' ∉ buf) (hlen : buf.length ≤ 255) :
    (buf.length ≤ i → gc_next_statement buf i st = (none, st)) ∧
    (i < buf.length → c_isupper (buf.getD i '\x00') = false →
      gc_next_statement buf i st = (none, Status.TG_EXPECTED_COMMAND_LETTER)) ∧
    (i < buf.length → c_isupper (buf.getD i '\x00') = true →
      strtodParse buf (i + 1) = none →
      gc_next_statement buf i st = (none, Status.TG_BAD_NUMBER_FORMAT)) ∧
    (∀ (v : DVal) (i' : Nat), i < buf.length → c_isupper (buf.getD i '\x00') = true →
      strtodParse buf (i + 1) = some (v, i') →
      gc_next_statement buf i st =
        (some (buf.getD i '\x00', v, DVal.sub v (DVal.trunc v), i'), st) ∧
      i + 2 ≤ i' ∧ i' ≤ buf.length) := by
  have hne : ∀ hi : i < buf.length, buf.getD i '\x00' ≠ '\x00' := by
    intro hi heq
    have : buf.getD i '\x00' ∈ buf := by
      rw [List.getD_eq_getElem?_getD, List.getElem?_eq_getElem hi]
      exact List.getElem_mem hi
    rw [heq] at this
    exact hnul this
  have hconv : buf.getD i '\x00' = buf[i]?.getD '\x00' := List.getD_eq_getElem?_getD buf i '\x00'
  refine ⟨?_, ?_, ?_, ?_⟩
  · intro hge
    simp only [gc_next_statement]
    rw [if_pos (List.getD_eq_default _ _ hge)]
  · intro hi hup
    rw [hconv] at hup
    simp only [gc_next_statement]
    rw [if_neg (hne hi), if_pos (by simp [hup])]
  · intro hi hup hsp
    rw [hconv] at hup
    simp only [gc_next_statement]
    rw [if_neg (hne hi), if_neg (by simp [hup]), hsp]
  · intro v i' hi hup hsp
    have hb := strtodParse_spec buf (i + 1) v i' hsp
    have hmax : max buf.length (i + 1) = buf.length := by omega
    rw [hmax] at hb
    refine ⟨?_, by omega, by omega⟩
    rw [hconv] at hup
    simp only [gc_next_statement]
    rw [if_neg (hne hi), if_neg (by simp [hup]), hsp]

/-- C9 witness: the tokenizer at the start of `XINF` returns the statement
(`X`, `+inf`, `+inf - trunc(+inf)`) — `strtod` converts the `INF` form — and
moves the cursor past the converted text. -/
theorem C9_witness :
    gc_next_statement ['X', 'I', 'N', 'F'] 0 Status.TG_OK =
      (some ('X', DVal.pinf, DVal.sub DVal.pinf (DVal.trunc DVal.pinf), 4), Status.TG_OK) ∧
    0 + 2 ≤ 4 ∧ 4 ≤ (['X', 'I', 'N', 'F'] : List Char).length := by
  have h := (C9_amended ['X', 'I', 'N', 'F'] 0 Status.TG_OK (by decide) (by decide)).2.2.2
    DVal.pinf 4 (by decide) (by decide) (by decide)
  exact ⟨(by simpa using h.1), h.2.1, h.2.2⟩

end TinyG
